import Mathlib

/-!
Verification development for the message-stream repository: a FIFO queue
wrapper (MessageQueue, src/MessageQueue.js) and a consumer-group stream
wrapper (MessageStream) over a Redis-like in-memory store.

Shallow embedding conventions.
The JavaScript methods are async functions that either resolve with a value
or reject with an error; each method is translated to a pure Lean function
returning an Except value paired with the successor state of the store and
of the client. The external store (Redis) is modelled by explicit state
types: a stream is a list of (id, data) entries plus an optional consumer
group (cursor and pending-entry list); a queue is a list of stored JSON
texts. Transport failures of individual store commands are injected through
explicit Boolean fault parameters: a parameter value false means the
corresponding command rejects with a transport error, true means the
command executes its documented store semantics. JSON.stringify and
JSON.parse of the hosting runtime are modelled by an executable encoder and
recursive-descent reader over a JSON value type; numbers are restricted to
integers (float formatting is outside the embedding), control characters
are emitted in the uXXXX escape form, and the reader additionally accepts
the standard short escapes. JS truthiness of decoded payloads is modelled
by Jval.truthy.
-/

/-- Model of a JSON-serializable value (JSON.stringify input domain,
with numbers restricted to integers). -/
inductive Jval where
  | jnull : Jval
  | jbool (b : Bool) : Jval
  | jnum (n : Int) : Jval
  | jstr (s : List Char) : Jval
  | jarr (xs : List Jval) : Jval
  | jobj (kvs : List (List Char × Jval)) : Jval

/-- JS truthiness of a JSON value: null, false, 0 and the empty string are
falsy, everything else (arrays and objects included) is truthy. -/
def Jval.truthy : Jval → Bool
  | .jnull => false
  | .jbool b => b
  | .jnum n => decide (n ≠ 0)
  | .jstr s => decide (s ≠ [])
  | .jarr _ => true
  | .jobj _ => true

/-- JS truthiness of a possibly-undefined value. -/
def jsTruthy : Option Jval → Bool
  | none => false
  | some v => v.truthy

/-- Decimal digit character for n below 10. -/
def digChar (n : Nat) : Char := Char.ofNat (48 + n)

/-- Lowercase hexadecimal digit character for n below 16. -/
def hexChar (n : Nat) : Char :=
  if n < 10 then Char.ofNat (48 + n) else Char.ofNat (87 + n)

/-- Decimal digit list of a natural number, most significant first. -/
def natDigits (n : Nat) : List Char :=
  if n < 10 then [digChar n]
  else natDigits (n / 10) ++ [digChar (n % 10)]
decreasing_by exact Nat.div_lt_self (by omega) (by omega)

/-- Decimal rendering of an integer, as JSON.stringify renders an
integral number. -/
def encInt (n : Int) : List Char :=
  if n < 0 then '-' :: natDigits n.natAbs else natDigits n.toNat

/-- Escape of one character inside a JSON string literal: the quote and the
backslash get a backslash escape, control characters get the uXXXX form,
every other character stands for itself. -/
def escChar (c : Char) : List Char :=
  if c = '"' then ['\\', '"']
  else if c = '\\' then ['\\', '\\']
  else if c.toNat < 32 then
    ['\\', 'u', '0', '0', hexChar (c.toNat / 16), hexChar (c.toNat % 16)]
  else [c]

/-- Escaped body of a JSON string literal. -/
def escStr (s : List Char) : List Char := (s.map escChar).flatten

mutual

/-- JSON text of a value, modelling JSON.stringify. -/
def Jval.encode : Jval → List Char
  | .jnull => ['n', 'u', 'l', 'l']
  | .jbool true => ['t', 'r', 'u', 'e']
  | .jbool false => ['f', 'a', 'l', 's', 'e']
  | .jnum n => encInt n
  | .jstr s => '"' :: (escStr s ++ ['"'])
  | .jarr [] => ['[', ']']
  | .jarr (x :: xs) => '[' :: (encodeItems x xs ++ [']'])
  | .jobj [] => ['\x7b', '\x7d']
  | .jobj (kv :: kvs) => '\x7b' :: (encodeFields kv kvs ++ ['\x7d'])
termination_by v => sizeOf v
decreasing_by all_goals (simp_wf; try omega)

/-- Comma-separated JSON texts of the elements of a nonempty array. -/
def encodeItems : Jval → List Jval → List Char
  | x, [] => x.encode
  | x, y :: ys => x.encode ++ ',' :: encodeItems y ys
termination_by x xs => sizeOf x + sizeOf xs
decreasing_by all_goals (simp_wf; try omega)

/-- Comma-separated key:value JSON texts of the members of a nonempty
object. -/
def encodeFields : (List Char × Jval) → List (List Char × Jval) → List Char
  | (k, v), [] => '"' :: (escStr k ++ '"' :: ':' :: v.encode)
  | (k, v), kv2 :: kvs =>
    ('"' :: (escStr k ++ '"' :: ':' :: v.encode)) ++ ',' :: encodeFields kv2 kvs
termination_by kv kvs => sizeOf kv + sizeOf kvs
decreasing_by all_goals (simp_wf; try omega)

end

/-- Decimal digit test on a character. -/
def isDig (c : Char) : Bool := decide (48 ≤ c.toNat ∧ c.toNat ≤ 57)

/-- Value of a hexadecimal digit character, if any. -/
def hexVal (c : Char) : Option Nat :=
  if 48 ≤ c.toNat ∧ c.toNat ≤ 57 then some (c.toNat - 48)
  else if 97 ≤ c.toNat ∧ c.toNat ≤ 102 then some (c.toNat - 87)
  else if 65 ≤ c.toNat ∧ c.toNat ≤ 70 then some (c.toNat - 55)
  else none

/-- Character denoted by a one-character escape inside a JSON string
literal, if any. -/
def shortEsc (e : Char) : Option Char :=
  if e = '"' then some '"'
  else if e = '\\' then some '\\'
  else if e = '/' then some '/'
  else if e = 'b' then some (Char.ofNat 8)
  else if e = 'f' then some (Char.ofNat 12)
  else if e = 'n' then some (Char.ofNat 10)
  else if e = 'r' then some (Char.ofNat 13)
  else if e = 't' then some (Char.ofNat 9)
  else none

/-- Reader for the body of a JSON string literal after the opening quote:
returns the denoted characters and the input following the closing
quote. -/
def parseStrBody : List Char → Option (List Char × List Char)
  | [] => none
  | c :: rest =>
    if c = '"' then some ([], rest)
    else if c = '\\' then
      match rest with
      | 'u' :: h1 :: h2 :: h3 :: h4 :: rest2 =>
        match hexVal h1, hexVal h2, hexVal h3, hexVal h4 with
        | some a, some b, some d, some e =>
          match parseStrBody rest2 with
          | some (s, r) => some (Char.ofNat (((a * 16 + b) * 16 + d) * 16 + e) :: s, r)
          | none => none
        | _, _, _, _ => none
      | e :: rest2 =>
        match shortEsc e with
        | some c2 =>
          match parseStrBody rest2 with
          | some (s, r) => some (c2 :: s, r)
          | none => none
        | none => none
      | [] => none
    else if c.toNat < 32 then none
    else
      match parseStrBody rest with
      | some (s, r) => some (c :: s, r)
      | none => none

/-- Greedy reader of decimal digits, folding them onto an accumulator. -/
def parseDigits (acc : Nat) : List Char → Nat × List Char
  | [] => (acc, [])
  | c :: rest =>
    if isDig c then parseDigits (acc * 10 + (c.toNat - 48)) rest
    else (acc, c :: rest)

mutual

/-- Fuel-indexed recursive-descent reader for one JSON value, over the
whitespace-free grammar that Jval.encode produces (JSON.parse model). -/
def parseVal : Nat → List Char → Option (Jval × List Char)
  | 0, _ => none
  | _ + 1, [] => none
  | fuel + 1, c :: rest =>
    if c = 'n' then
      match rest with
      | 'u' :: 'l' :: 'l' :: r => some (.jnull, r)
      | _ => none
    else if c = 't' then
      match rest with
      | 'r' :: 'u' :: 'e' :: r => some (.jbool true, r)
      | _ => none
    else if c = 'f' then
      match rest with
      | 'a' :: 'l' :: 's' :: 'e' :: r => some (.jbool false, r)
      | _ => none
    else if c = '"' then
      match parseStrBody rest with
      | some (s, r) => some (.jstr s, r)
      | none => none
    else if c = '[' then
      match rest with
      | ']' :: r => some (.jarr [], r)
      | _ =>
        match parseItems fuel rest with
        | some (xs, r) => some (.jarr xs, r)
        | none => none
    else if c = '\x7b' then
      match rest with
      | '\x7d' :: r => some (.jobj [], r)
      | _ =>
        match parseFields fuel rest with
        | some (kvs, r) => some (.jobj kvs, r)
        | none => none
    else if c = '-' then
      match rest with
      | c2 :: r2 =>
        if isDig c2 then
          let p := parseDigits (c2.toNat - 48) r2
          some (.jnum (-(p.1 : Int)), p.2)
        else none
      | [] => none
    else if isDig c then
      let p := parseDigits (c.toNat - 48) rest
      some (.jnum (p.1 : Int), p.2)
    else none

/-- Fuel-indexed reader for the elements of a nonempty JSON array,
consuming the closing bracket. -/
def parseItems : Nat → List Char → Option (List Jval × List Char)
  | 0, _ => none
  | fuel + 1, s =>
    match parseVal fuel s with
    | some (v, r) =>
      match r with
      | ',' :: r2 =>
        match parseItems fuel r2 with
        | some (vs, r3) => some (v :: vs, r3)
        | none => none
      | ']' :: r2 => some ([v], r2)
      | _ => none
    | none => none

/-- Fuel-indexed reader for the members of a nonempty JSON object,
consuming the closing brace. -/
def parseFields : Nat → List Char → Option (List (List Char × Jval) × List Char)
  | 0, _ => none
  | fuel + 1, s =>
    match s with
    | '"' :: rest =>
      match parseStrBody rest with
      | some (k, r) =>
        match r with
        | ':' :: r2 =>
          match parseVal fuel r2 with
          | some (v, r3) =>
            match r3 with
            | ',' :: r4 =>
              match parseFields fuel r4 with
              | some (kvs, r5) => some ((k, v) :: kvs, r5)
              | none => none
            | '\x7d' :: r4 => some ([(k, v)], r4)
            | _ => none
          | none => none
        | _ => none
      | none => none
    | _ => none

end

/-- JSON text reader modelling JSON.parse: reads one value and requires
the whole input to be consumed. -/
def Jval.parse (s : List Char) : Option Jval :=
  match parseVal (2 * s.length) s with
  | some (v, []) => some v
  | _ => none

/-- Digit characters carry their decimal value. -/
theorem digChar_toNat : ∀ n, n < 10 → (digChar n).toNat = 48 + n := by decide

/-- Digit characters pass the digit test. -/
theorem isDig_digChar : ∀ n, n < 10 → isDig (digChar n) = true := by decide

/-- Hex digit characters round-trip through hexVal. -/
theorem hexVal_hexChar : ∀ n, n < 16 → hexVal (hexChar n) = some n := by decide

/-- The decimal rendering of a natural number is never empty. -/
theorem natDigits_ne_nil (n : Nat) : natDigits n ≠ [] := by
  rw [natDigits]
  split <;> simp

/-- Every character of the decimal rendering is a digit. -/
theorem natDigits_digits (n : Nat) : ∀ c ∈ natDigits n, isDig c = true := by
  induction n using Nat.strong_induction_on with
  | _ n ih =>
    rw [natDigits]
    split
    · intro c hc
      simp only [List.mem_singleton] at hc
      subst hc
      exact isDig_digChar n (by omega)
    · intro c hc
      rcases List.mem_append.mp hc with h | h
      · exact ih (n / 10) (Nat.div_lt_self (by omega) (by omega)) c h
      · simp only [List.mem_singleton] at h
        subst h
        exact isDig_digChar (n % 10) (Nat.mod_lt _ (by omega))

/-- Folding the decimal digits of n onto an accumulator scales the
accumulator by the digit count and adds n. -/
theorem natDigits_foldl (n : Nat) : ∀ acc,
    (natDigits n).foldl (fun a c => a * 10 + (c.toNat - 48)) acc =
      acc * 10 ^ (natDigits n).length + n := by
  induction n using Nat.strong_induction_on with
  | _ n ih =>
    intro acc
    rw [natDigits]
    split
    · simp [digChar_toNat n (by omega)]
    · rw [List.foldl_append, List.length_append]
      rw [ih (n / 10) (Nat.div_lt_self (by omega) (by omega))]
      simp only [List.foldl_cons, List.foldl_nil, List.length_cons, List.length_nil]
      rw [digChar_toNat (n % 10) (Nat.mod_lt _ (by omega))]
      have h10 : 10 ^ ((natDigits (n / 10)).length + (0 + 1)) =
          10 ^ (natDigits (n / 10)).length * 10 := by
        rw [Nat.zero_add, Nat.pow_succ]
      rw [h10]
      have := Nat.div_add_mod n 10
      ring_nf
      omega

/-- Absence of a leading digit in the remaining input. -/
def noLeadDigit : List Char → Bool
  | [] => true
  | c :: _ => !(isDig c)

/-- parseDigits consumes exactly an all-digit prefix when the rest does
not begin with a digit. -/
theorem parseDigits_append (ds : List Char) : ∀ acc rest,
    (∀ c ∈ ds, isDig c = true) → noLeadDigit rest = true →
    parseDigits acc (ds ++ rest) =
      (ds.foldl (fun a c => a * 10 + (c.toNat - 48)) acc, rest) := by
  induction ds with
  | nil =>
    intro acc rest _ hrest
    cases rest with
    | nil => simp [parseDigits]
    | cons c r =>
      simp only [noLeadDigit, Bool.not_eq_true'] at hrest
      simp [parseDigits, hrest]
  | cons c ds ih =>
    intro acc rest hds hrest
    have hc : isDig c = true := hds c (List.mem_cons_self _ _)
    simp only [List.cons_append, parseDigits, hc, if_true, List.foldl_cons]
    exact ih _ rest (fun c2 h2 => hds c2 (List.mem_cons_of_mem _ h2)) hrest

/-- Reading back the decimal rendering of n recovers n. -/
theorem parseDigits_natDigits (n : Nat) (rest : List Char)
    (h : noLeadDigit rest = true) :
    ∃ c cs, natDigits n = c :: cs ∧ isDig c = true ∧
      parseDigits (c.toNat - 48) (cs ++ rest) = (n, rest) := by
  rcases hne : natDigits n with _ | ⟨c, cs⟩
  · exact absurd hne (natDigits_ne_nil n)
  · refine ⟨c, cs, rfl, ?_, ?_⟩
    · exact natDigits_digits n c (by rw [hne]; exact List.mem_cons_self _ _)
    · have hds : ∀ c2 ∈ cs, isDig c2 = true := by
        intro c2 h2
        exact natDigits_digits n c2 (by rw [hne]; exact List.mem_cons_of_mem _ h2)
      rw [parseDigits_append cs _ rest hds h]
      have hfold := natDigits_foldl n 0
      rw [hne] at hfold
      simp only [List.foldl_cons, Nat.zero_mul, Nat.zero_add] at hfold
      rw [hfold]

/-- Reading back the escaped body of a string recovers the characters. -/
theorem parseStrBody_escStr (s : List Char) : ∀ rest,
    parseStrBody (escStr s ++ '"' :: rest) = some (s, rest) := by
  induction s with
  | nil =>
    intro rest
    rw [show escStr [] = [] from rfl, List.nil_append, parseStrBody.eq_def]
    simp
  | cons c s ih =>
    intro rest
    have hesc : escStr (c :: s) = escChar c ++ escStr s := by
      simp [escStr]
    rw [hesc, List.append_assoc]
    by_cases hq : c = '"'
    · subst hq
      rw [show escChar '"' = ['\\', '"'] from by decide, List.cons_append,
        List.cons_append, List.nil_append, parseStrBody.eq_def]
      simp [shortEsc, ih rest]
    · by_cases hb : c = '\\'
      · subst hb
        rw [show escChar '\\' = ['\\', '\\'] from by decide, List.cons_append,
          List.cons_append, List.nil_append, parseStrBody.eq_def]
        simp [shortEsc, ih rest]
      · by_cases hctrl : c.toNat < 32
        · have hec : escChar c =
              ['\\', 'u', '0', '0', hexChar (c.toNat / 16), hexChar (c.toNat % 16)] := by
            simp [escChar, hq, hb, hctrl]
          have h1 : c.toNat / 16 < 16 := by omega
          have h2 : c.toNat % 16 < 16 := Nat.mod_lt _ (by omega)
          have hvz : hexVal '0' = some 0 := by decide
          rw [hec]
          simp only [List.cons_append, List.nil_append]
          rw [parseStrBody.eq_def]
          simp only [reduceIte, hexVal_hexChar _ h1, hexVal_hexChar _ h2, hvz, ih rest]
          have harith : ((0 * 16 + 0) * 16 + c.toNat / 16) * 16 + c.toNat % 16 = c.toNat := by
            omega
          rw [harith, Char.ofNat_toNat]
          simp
        · have hec : escChar c = [c] := by
            simp [escChar, hq, hb, hctrl]
          rw [hec, List.cons_append, List.nil_append, parseStrBody.eq_def]
          simp [hq, hb, hctrl, ih rest]

mutual

/-- Fuel cost sufficient for the reader to process an encoded value. -/
def Jval.cost : Jval → Nat
  | .jnull => 1
  | .jbool _ => 1
  | .jnum _ => 1
  | .jstr _ => 1
  | .jarr [] => 1
  | .jarr (x :: xs) => 1 + costItems x xs
  | .jobj [] => 1
  | .jobj (kv :: kvs) => 1 + costFields kv kvs
termination_by v => sizeOf v
decreasing_by all_goals (simp_wf; try omega)

/-- Fuel cost sufficient to process an encoded nonempty element list. -/
def costItems : Jval → List Jval → Nat
  | x, [] => 1 + x.cost
  | x, y :: ys => 1 + x.cost + costItems y ys
termination_by x xs => sizeOf x + sizeOf xs
decreasing_by all_goals (simp_wf; try omega)

/-- Fuel cost sufficient to process an encoded nonempty member list. -/
def costFields : (List Char × Jval) → List (List Char × Jval) → Nat
  | (_, v), [] => 1 + v.cost
  | (_, v), kv2 :: kvs => 1 + v.cost + costFields kv2 kvs
termination_by kv kvs => sizeOf kv + sizeOf kvs
decreasing_by all_goals (simp_wf; try omega)

end

/-- Every value has positive cost. -/
theorem cost_pos (v : Jval) : 1 ≤ v.cost := by
  cases v with
  | jnull => simp [Jval.cost]
  | jbool b => simp [Jval.cost]
  | jnum n => simp [Jval.cost]
  | jstr s => simp [Jval.cost]
  | jarr xs => cases xs <;> simp [Jval.cost]
  | jobj kvs =>
    cases kvs with
    | nil => simp [Jval.cost]
    | cons kv kvs => cases kv; simp [Jval.cost]

/-- Every nonempty element list has positive cost. -/
theorem costItems_pos (x : Jval) (xs : List Jval) : 1 ≤ costItems x xs := by
  cases xs with
  | nil => simp [costItems]
  | cons y ys => simp [costItems]; omega

/-- Every nonempty member list has positive cost. -/
theorem costFields_pos (kv : List Char × Jval) (kvs : List (List Char × Jval)) :
    1 ≤ costFields kv kvs := by
  cases kv; cases kvs with
  | nil => simp [costFields]
  | cons kv2 kvs => cases kv2; simp [costFields]; omega

/-- A digit character is none of the characters that start another kind
of JSON value, and none of the structural delimiters. -/
theorem isDig_not_keyword (c : Char) (h : isDig c = true) :
    c ≠ 'n' ∧ c ≠ 't' ∧ c ≠ 'f' ∧ c ≠ '"' ∧ c ≠ '[' ∧ c ≠ '\x7b' ∧ c ≠ '-' ∧
      c ≠ ']' ∧ c ≠ '\x7d' ∧ c ≠ ',' := by
  refine ⟨?_, ?_, ?_, ?_, ?_, ?_, ?_, ?_, ?_, ?_⟩ <;>
    (rintro rfl; exact absurd h (by decide))

/-- The encoding of a value is nonempty and never starts with a closing
delimiter. -/
theorem encode_head (v : Jval) :
    ∃ c cs, Jval.encode v = c :: cs ∧ c ≠ ']' ∧ c ≠ '\x7d' := by
  cases v with
  | jnull => exact ⟨'n', ['u', 'l', 'l'], by simp [Jval.encode], by decide, by decide⟩
  | jbool b =>
    cases b with
    | true => exact ⟨'t', ['r', 'u', 'e'], by simp [Jval.encode], by decide, by decide⟩
    | false => exact ⟨'f', ['a', 'l', 's', 'e'], by simp [Jval.encode], by decide, by decide⟩
  | jnum k =>
    by_cases hk : k < 0
    · exact ⟨'-', natDigits k.natAbs, by simp [Jval.encode, encInt, hk], by decide, by decide⟩
    · rcases hnd : natDigits k.toNat with _ | ⟨c, cs⟩
      · exact absurd hnd (natDigits_ne_nil _)
      · have hdig : isDig c = true :=
          natDigits_digits _ c (by rw [hnd]; exact List.mem_cons_self _ _)
        have hkw := isDig_not_keyword c hdig
        exact ⟨c, cs, by simp [Jval.encode, encInt, hk, hnd],
          hkw.2.2.2.2.2.2.2.1, hkw.2.2.2.2.2.2.2.2.1⟩
  | jstr s => exact ⟨'"', escStr s ++ ['"'], by simp [Jval.encode], by decide, by decide⟩
  | jarr xs =>
    cases xs with
    | nil => exact ⟨'[', [']'], by simp [Jval.encode], by decide, by decide⟩
    | cons x xs =>
      exact ⟨'[', encodeItems x xs ++ [']'], by simp [Jval.encode], by decide, by decide⟩
  | jobj kvs =>
    cases kvs with
    | nil => exact ⟨'\x7b', ['\x7d'], by simp [Jval.encode], by decide, by decide⟩
    | cons kv kvs =>
      exact ⟨'\x7b', encodeFields kv kvs ++ ['\x7d'], by simp [Jval.encode],
        by decide, by decide⟩

/-- The cost of a value is at most twice the length of its encoding (and
correspondingly for nonempty element and member lists). -/
theorem cost_le_len : ∀ n : Nat,
    (∀ v, Jval.cost v ≤ n → Jval.cost v ≤ 2 * (Jval.encode v).length) ∧
    (∀ x xs, costItems x xs ≤ n →
      costItems x xs ≤ 2 * (encodeItems x xs).length + 1) ∧
    (∀ kv kvs, costFields kv kvs ≤ n →
      costFields kv kvs ≤ 2 * (encodeFields kv kvs).length + 1) := by
  intro n
  induction n using Nat.strong_induction_on with
  | _ n IH =>
    refine ⟨?_, ?_, ?_⟩
    · intro v hv
      cases v with
      | jnull => simp [Jval.cost, Jval.encode]
      | jbool b => cases b <;> simp [Jval.cost, Jval.encode]
      | jnum k =>
        have hlen : 1 ≤ (encInt k).length := by
          unfold encInt
          split
          · simp
          · have := natDigits_ne_nil k.toNat
            cases hnd : natDigits k.toNat with
            | nil => exact absurd hnd this
            | cons c cs => simp [hnd]
        simp only [Jval.cost, Jval.encode]
        omega
      | jstr s => simp [Jval.cost, Jval.encode]; omega
      | jarr xs =>
        cases xs with
        | nil => simp [Jval.cost, Jval.encode]
        | cons x xs =>
          have h1 : 1 ≤ costItems x xs := costItems_pos x xs
          have hcost : Jval.cost (.jarr (x :: xs)) = 1 + costItems x xs := by
            simp [Jval.cost]
          have hn : 1 ≤ n := by omega
          have hB := (IH (n - 1) (by omega)).2.1 x xs (by omega)
          have hlen : (Jval.encode (.jarr (x :: xs))).length =
              (encodeItems x xs).length + 2 := by
            simp [Jval.encode]
          omega
      | jobj kvs =>
        cases kvs with
        | nil => simp [Jval.cost, Jval.encode]
        | cons kv kvs =>
          have h1 : 1 ≤ costFields kv kvs := costFields_pos kv kvs
          have hcost : Jval.cost (.jobj (kv :: kvs)) = 1 + costFields kv kvs := by
            cases kv; simp [Jval.cost]
          have hn : 1 ≤ n := by omega
          have hC := (IH (n - 1) (by omega)).2.2 kv kvs (by omega)
          have hlen : (Jval.encode (.jobj (kv :: kvs))).length =
              (encodeFields kv kvs).length + 2 := by
            cases kv; simp [Jval.encode]
          omega
    · intro x xs hx
      cases xs with
      | nil =>
        have h1 : 1 ≤ Jval.cost x := cost_pos x
        have hcost : costItems x [] = 1 + Jval.cost x := by simp [costItems]
        have hn : 1 ≤ n := by omega
        have hA := (IH (n - 1) (by omega)).1 x (by omega)
        have hlen : (encodeItems x []).length = (Jval.encode x).length := by
          simp [encodeItems]
        omega
      | cons y ys =>
        have h1 : 1 ≤ Jval.cost x := cost_pos x
        have h2 : 1 ≤ costItems y ys := costItems_pos y ys
        have hcost : costItems x (y :: ys) = 1 + Jval.cost x + costItems y ys := by
          simp [costItems]
        have hn : 1 ≤ n := by omega
        have hA := (IH (n - 1) (by omega)).1 x (by omega)
        have hB := (IH (n - 1) (by omega)).2.1 y ys (by omega)
        have hlen : (encodeItems x (y :: ys)).length =
            (Jval.encode x).length + 1 + (encodeItems y ys).length := by
          simp [encodeItems]; omega
        omega
    · intro kv kvs hkv
      rcases kv with ⟨k, v⟩
      cases kvs with
      | nil =>
        have h1 : 1 ≤ Jval.cost v := cost_pos v
        have hcost : costFields (k, v) [] = 1 + Jval.cost v := by simp [costFields]
        have hn : 1 ≤ n := by omega
        have hA := (IH (n - 1) (by omega)).1 v (by omega)
        have hlen : (Jval.encode v).length + 3 ≤ (encodeFields (k, v) []).length := by
          simp [encodeFields]
        omega
      | cons kv2 kvs =>
        have h1 : 1 ≤ Jval.cost v := cost_pos v
        have h2 : 1 ≤ costFields kv2 kvs := costFields_pos kv2 kvs
        have hcost : costFields (k, v) (kv2 :: kvs) =
            1 + Jval.cost v + costFields kv2 kvs := by simp [costFields]
        have hn : 1 ≤ n := by omega
        have hA := (IH (n - 1) (by omega)).1 v (by omega)
        have hC := (IH (n - 1) (by omega)).2.2 kv2 kvs (by omega)
        have hlen : (Jval.encode v).length + 4 + (encodeFields kv2 kvs).length ≤
            (encodeFields (k, v) (kv2 :: kvs)).length := by
          simp [encodeFields]; omega
        omega

/-- noLeadDigit holds of input starting with a non-digit character. -/
theorem noLeadDigit_cons (c : Char) (l : List Char) :
    noLeadDigit (c :: l) = !(isDig c) := rfl

/-- Reading back an encoded value consumes exactly the encoding, for any
fuel at least the cost of the value (mutually with nonempty element lists
and member lists). -/
theorem parse_encode_aux : ∀ n : Nat,
    (∀ v rest, Jval.cost v ≤ n → noLeadDigit rest = true →
      parseVal n (Jval.encode v ++ rest) = some (v, rest)) ∧
    (∀ x xs rest, costItems x xs ≤ n →
      parseItems n (encodeItems x xs ++ ']' :: rest) = some (x :: xs, rest)) ∧
    (∀ kv kvs rest, costFields kv kvs ≤ n →
      parseFields n (encodeFields kv kvs ++ '\x7d' :: rest) = some (kv :: kvs, rest)) := by
  intro n
  induction n using Nat.strong_induction_on with
  | _ n IH =>
    rcases n with _ | m
    · refine ⟨?_, ?_, ?_⟩
      · intro v rest hc _
        exact absurd hc (by have := cost_pos v; omega)
      · intro x xs rest hc
        exact absurd hc (by have := costItems_pos x xs; omega)
      · intro kv kvs rest hc
        exact absurd hc (by have := costFields_pos kv kvs; omega)
    · refine ⟨?_, ?_, ?_⟩
      · intro v rest hc hrest
        cases v with
        | jnull =>
          simp only [Jval.encode, List.cons_append, List.nil_append]
          simp [parseVal, Char.reduceEq, reduceIte]
        | jbool b =>
          cases b with
          | true =>
            simp only [Jval.encode, List.cons_append, List.nil_append]
            simp [parseVal, Char.reduceEq, reduceIte]
          | false =>
            simp only [Jval.encode, List.cons_append, List.nil_append]
            simp [parseVal, Char.reduceEq, reduceIte]
        | jnum k =>
          by_cases hk : k < 0
          · obtain ⟨c, cs, hnd, hdig, hpd⟩ := parseDigits_natDigits k.natAbs rest hrest
            have henc : Jval.encode (.jnum k) ++ rest =
                '-' :: (c :: (cs ++ rest)) := by
              simp [Jval.encode, encInt, hk, hnd]
            rw [henc]
            simp only [parseVal, Char.reduceEq, reduceIte]
            rw [if_pos hdig]
            simp only [hpd]
            have harith : -((k.natAbs : Nat) : Int) = k := by omega
            rw [harith]
          · obtain ⟨c, cs, hnd, hdig, hpd⟩ := parseDigits_natDigits k.toNat rest hrest
            have hkw := isDig_not_keyword c hdig
            have henc : Jval.encode (.jnum k) ++ rest = c :: (cs ++ rest) := by
              simp [Jval.encode, encInt, hk, hnd]
            rw [henc]
            simp only [parseVal]
            rw [if_neg hkw.1, if_neg hkw.2.1, if_neg hkw.2.2.1, if_neg hkw.2.2.2.1,
              if_neg hkw.2.2.2.2.1, if_neg hkw.2.2.2.2.2.1, if_neg hkw.2.2.2.2.2.2.1,
              if_pos hdig]
            simp only [hpd]
            have : ((k.toNat : Nat) : Int) = k := by omega
            simp [this]
        | jstr s =>
          have henc : Jval.encode (.jstr s) ++ rest =
              '"' :: (escStr s ++ '"' :: rest) := by
            simp [Jval.encode]
          rw [henc]
          simp [parseVal, Char.reduceEq, reduceIte, parseStrBody_escStr s rest]
        | jarr xs =>
          cases xs with
          | nil =>
            have henc : Jval.encode (.jarr []) ++ rest = '[' :: ']' :: rest := by
              simp [Jval.encode]
            rw [henc]
            simp [parseVal, Char.reduceEq, reduceIte]
          | cons x xs =>
            obtain ⟨c, cs, hx, hc1, hc2⟩ := encode_head x
            obtain ⟨t, hti⟩ : ∃ t, encodeItems x xs = Jval.encode x ++ t := by
              cases xs with
              | nil => exact ⟨[], by simp [encodeItems]⟩
              | cons y ys => exact ⟨',' :: encodeItems y ys, by simp [encodeItems]⟩
            have hIT := (IH m (by omega)).2.1 x xs rest (by
              have hcc : Jval.cost (.jarr (x :: xs)) = 1 + costItems x xs := by
                simp [Jval.cost]
              omega)
            have henc : Jval.encode (.jarr (x :: xs)) ++ rest =
                '[' :: (encodeItems x xs ++ (']' :: rest)) := by
              simp [Jval.encode]
            rw [henc]
            rw [hti, hx] at hIT ⊢
            simp only [List.cons_append, List.append_assoc] at hIT ⊢
            simp only [parseVal, Char.reduceEq, reduceIte]
            split
            · rename_i heq
              rw [List.cons_eq_cons] at heq
              exact absurd heq.1 hc1
            · rw [hIT]
        | jobj kvs =>
          cases kvs with
          | nil =>
            have henc : Jval.encode (.jobj []) ++ rest = '\x7b' :: '\x7d' :: rest := by
              simp [Jval.encode]
            rw [henc]
            simp [parseVal, Char.reduceEq, reduceIte]
          | cons kv kvs =>
            obtain ⟨t, hti⟩ : ∃ t, encodeFields kv kvs = '"' :: t := by
              rcases kv with ⟨k, v⟩
              cases kvs with
              | nil => exact ⟨escStr k ++ '"' :: ':' :: Jval.encode v, by simp [encodeFields]⟩
              | cons kv2 kvs =>
                exact ⟨(escStr k ++ '"' :: ':' :: Jval.encode v) ++
                  ',' :: encodeFields kv2 kvs, by simp [encodeFields]⟩
            have hIF := (IH m (by omega)).2.2 kv kvs rest (by
              have hcc : Jval.cost (.jobj (kv :: kvs)) = 1 + costFields kv kvs := by
                rcases kv with ⟨k, v⟩; simp [Jval.cost]
              omega)
            have henc : Jval.encode (.jobj (kv :: kvs)) ++ rest =
                '\x7b' :: (encodeFields kv kvs ++ ('\x7d' :: rest)) := by
              rcases kv with ⟨k, v⟩; simp [Jval.encode]
            rw [henc]
            rw [hti] at hIF ⊢
            simp only [List.cons_append, List.append_assoc] at hIF ⊢
            simp only [parseVal, Char.reduceEq, reduceIte]
            split
            · rename_i heq
              rw [List.cons_eq_cons] at heq
              exact absurd heq.1 (by decide)
            · rw [hIF]
      · intro x xs rest hc
        cases xs with
        | nil =>
          have hA := (IH m (by omega)).1 x (']' :: rest)
            (by have : costItems x [] = 1 + Jval.cost x := by simp [costItems]
                omega)
            (by rw [noLeadDigit_cons]; decide)
          simp only [encodeItems]
          simp only [parseItems]
          rw [hA]
          simp [Char.reduceEq, reduceIte]
        | cons y ys =>
          have h1 : 1 ≤ Jval.cost x := cost_pos x
          have h2 : 1 ≤ costItems y ys := costItems_pos y ys
          have hcc : costItems x (y :: ys) = 1 + Jval.cost x + costItems y ys := by
            simp [costItems]
          have hA := (IH m (by omega)).1 x (',' :: (encodeItems y ys ++ ']' :: rest))
            (by omega) (by rw [noLeadDigit_cons]; decide)
          have hI := (IH m (by omega)).2.1 y ys rest (by omega)
          have henc : encodeItems x (y :: ys) ++ ']' :: rest =
              Jval.encode x ++ (',' :: (encodeItems y ys ++ ']' :: rest)) := by
            simp [encodeItems]
          rw [henc]
          simp only [parseItems]
          rw [hA]
          simp only [Char.reduceEq, reduceIte]
          rw [hI]
      · intro kv kvs rest hc
        rcases kv with ⟨k, v⟩
        cases kvs with
        | nil =>
          have hA := (IH m (by omega)).1 v ('\x7d' :: rest)
            (by have : costFields (k, v) [] = 1 + Jval.cost v := by simp [costFields]
                omega)
            (by rw [noLeadDigit_cons]; decide)
          have henc : encodeFields (k, v) [] ++ '\x7d' :: rest =
              '"' :: (escStr k ++ '"' :: (':' :: (Jval.encode v ++ '\x7d' :: rest))) := by
            simp [encodeFields]
          rw [henc]
          simp only [parseFields]
          rw [parseStrBody_escStr k (':' :: (Jval.encode v ++ '\x7d' :: rest))]
          simp only [Char.reduceEq, reduceIte]
          rw [hA]
          simp [Char.reduceEq, reduceIte]
        | cons kv2 kvs =>
          have h1 : 1 ≤ Jval.cost v := cost_pos v
          have h2 : 1 ≤ costFields kv2 kvs := costFields_pos kv2 kvs
          have hcc : costFields (k, v) (kv2 :: kvs) =
              1 + Jval.cost v + costFields kv2 kvs := by
            simp [costFields]
          have hA := (IH m (by omega)).1 v
            (',' :: (encodeFields kv2 kvs ++ '\x7d' :: rest)) (by omega)
            (by rw [noLeadDigit_cons]; decide)
          have hF := (IH m (by omega)).2.2 kv2 kvs rest (by omega)
          have henc : encodeFields (k, v) (kv2 :: kvs) ++ '\x7d' :: rest =
              '"' :: (escStr k ++ '"' :: (':' :: (Jval.encode v ++
                (',' :: (encodeFields kv2 kvs ++ '\x7d' :: rest))))) := by
            simp [encodeFields]
          rw [henc]
          simp only [parseFields]
          rw [parseStrBody_escStr k]
          simp only [Char.reduceEq, reduceIte]
          rw [hA]
          simp only [Char.reduceEq, reduceIte]
          rw [hF]

/-- JSON round trip: reading back the encoding of any value yields the
value (the encode-on-write / decode-on-read composition is the
identity). -/
theorem Jval.parse_encode (v : Jval) : Jval.parse (Jval.encode v) = some v := by
  have hb := (cost_le_len (Jval.cost v)).1 v (le_refl _)
  have h := (parse_encode_aux (2 * (Jval.encode v).length)).1 v [] (by omega) rfl
  rw [List.append_nil] at h
  unfold Jval.parse
  rw [h]

/-- Identifier of a stream entry (Redis assigns monotonically increasing
ids at append time; the model numbers them from zero). -/
abbrev EntryId := Nat

/-- State of the consumer group on a stream: the read cursor (entries
with id at or above lastDelivered are undelivered) and the pending-entry
list of ids read or claimed but not yet acknowledged. -/
structure GroupState where
  lastDelivered : EntryId
  pending : List EntryId
deriving DecidableEq

/-- State of the Redis stream key: the entries (id, stored JSON text) in
append order, the next id to assign, and the consumer group if it has
been created. -/
structure RedisStream where
  entries : List (EntryId × List Char)
  nextId : EntryId
  group : Option GroupState
deriving DecidableEq

/-- Errors of the JavaScript wrapper methods: domain errors correspond to
the wrapped Error values the repository constructs; the others model
errors of the underlying client (transport rejection, the BUSYGROUP and
NOGROUP reply errors, JSON.parse throwing) and the internal
NoMessageFoundError sentinel. -/
inductive DomainErr where
  | streamConnect | streamWrite | streamPurge | streamQuery | streamDisconnect
  | queueWrite | queueRead | queueQuery
deriving DecidableEq

/-- Error values that a modelled async method can reject with. -/
inductive JsErr where
  | transport : JsErr
  | busygroup : JsErr
  | nogroup : JsErr
  | parseError : JsErr
  | noMessageFound : JsErr
  | domain : DomainErr → JsErr
deriving DecidableEq

/-- XADD with id *: appends an entry under the next id and returns the
assigned id. -/
def XADD (r : RedisStream) (d : List Char) : EntryId × RedisStream :=
  (r.nextId, ⟨r.entries ++ [(r.nextId, d)], r.nextId + 1, r.group⟩)

/-- XGROUP_CREATE with cursor $ and MKSTREAM: fails with BUSYGROUP when
the group already exists, otherwise creates it with the cursor at the
current tail. -/
def XGROUP_CREATE (r : RedisStream) : Except JsErr Unit × RedisStream :=
  match r.group with
  | some _ => (.error .busygroup, r)
  | none => (.ok (), ⟨r.entries, r.nextId, some ⟨r.nextId, []⟩⟩)

/-- XREADGROUP with cursor >, COUNT 1 and BLOCK 2000: delivers the first
entry past the group cursor to this consumer, recording it as pending and
advancing the cursor; none models the blocking timeout elapsing with no
new entry. -/
def XREADGROUP (r : RedisStream) :
    Except JsErr (Option (EntryId × List Char)) × RedisStream :=
  match r.group with
  | none => (.error .nogroup, r)
  | some g =>
    match (r.entries.filter (fun e => decide (g.lastDelivered ≤ e.1))).head? with
    | none => (.ok none, r)
    | some (i, d) =>
      (.ok (some (i, d)), ⟨r.entries, r.nextId, some ⟨i + 1, g.pending ++ [i]⟩⟩)

/-- XAUTOCLAIM with min-idle-time 0, start 0 and COUNT 1: every pending
entry is immediately claimable, so the first pending id still present in
the stream is claimed by this consumer (ids of deleted entries are
dropped from the pending list, as Redis 7 does); the entry stays pending
until acknowledged. -/
def XAUTOCLAIM (r : RedisStream) :
    Except JsErr (Option (EntryId × List Char)) × RedisStream :=
  match r.group with
  | none => (.error .nogroup, r)
  | some g =>
    let live := g.pending.filter (fun i => r.entries.any (fun e => decide (e.1 = i)))
    match live.head? with
    | none => (.ok none, ⟨r.entries, r.nextId, some ⟨g.lastDelivered, live⟩⟩)
    | some i =>
      match r.entries.find? (fun e => decide (e.1 = i)) with
      | some (_, d) => (.ok (some (i, d)), ⟨r.entries, r.nextId, some ⟨g.lastDelivered, live⟩⟩)
      | none => (.ok none, ⟨r.entries, r.nextId, some ⟨g.lastDelivered, live⟩⟩)

/-- XACK: removes the id from the pending list of the group. -/
def XACK (r : RedisStream) (i : EntryId) : RedisStream :=
  match r.group with
  | none => r
  | some g => ⟨r.entries, r.nextId, some ⟨g.lastDelivered, g.pending.erase i⟩⟩

/-- XDEL: removes the entries with the given ids from the stream. -/
def XDEL (r : RedisStream) (ids : List EntryId) : RedisStream :=
  ⟨r.entries.filter (fun e => !(ids.contains e.1)), r.nextId, r.group⟩

/-- MAX_PROCESSED_IDS of the source: high-water mark of the processed-ID
buffer. -/
def MAX_PROCESSED_IDS : Nat := 10000

/-- JS Set.add on the processed-ID buffer: appends the id unless already
present. -/
def setAdd (s : List EntryId) (i : EntryId) : List EntryId :=
  if i ∈ s then s else s ++ [i]

/-- Transport-fault injection for the store commands that one
consumeMessage call can issue. -/
structure ConsumeFaults where
  autoclaimOk : Bool
  readOk : Bool
  ackOk : Bool
  delOk : Bool

/-- MessageStream.connect: client.connect then XGROUP_CREATE; a BUSYGROUP
reply is swallowed (the group already exists), every other failure is
wrapped as the stream connect error. -/
def MessageStream.connect (r : RedisStream) (connectOk createOk : Bool) :
    Except JsErr Unit × RedisStream :=
  if connectOk = false then (.error (.domain .streamConnect), r)
  else if createOk = false then (.error (.domain .streamConnect), r)
  else
    match XGROUP_CREATE r with
    | (.ok _, r1) => (.ok (), r1)
    | (.error e, r1) =>
      if e = .busygroup then (.ok (), r1)
      else (.error (.domain .streamConnect), r1)

/-- MessageStream.addMessage: XADD of the JSON text of the value,
returning the assigned id; transport failure is wrapped as the stream
write error. -/
def MessageStream.addMessage (r : RedisStream) (v : Jval) (ok : Bool) :
    Except JsErr EntryId × RedisStream :=
  if ok then
    match XADD r (Jval.encode v) with
    | (i, r1) => (.ok i, r1)
  else (.error (.domain .streamWrite), r)

/-- MessageStream.getFailedMessage: XAUTOCLAIM of at most one pending
entry with min idle time 0; the id and the JSON.parse of its data field
are returned, both absent when nothing is claimable; any error raised
inside the try block is re-raised unmodified. -/
def MessageStream.getFailedMessage (r : RedisStream) (ok : Bool) :
    Except JsErr (Option EntryId × Option Jval) × RedisStream :=
  if ok = false then (.error .transport, r)
  else
    match XAUTOCLAIM r with
    | (.error e, r1) => (.error e, r1)
    | (.ok none, r1) => (.ok (none, none), r1)
    | (.ok (some (i, d)), r1) =>
      match Jval.parse d with
      | some v => (.ok (some i, some v), r1)
      | none => (.error .parseError, r1)

/-- MessageStream.deleteProcessedMessages: when the buffer is nonempty,
XDEL of every buffered id and then clearing of the buffer; transport
failure is wrapped as the stream purge error and leaves the buffer as it
was; an empty buffer performs no store call. -/
def MessageStream.deleteProcessedMessages (r : RedisStream) (s : List EntryId)
    (ok : Bool) : Except JsErr Unit × RedisStream × List EntryId :=
  if 0 < s.length then
    if ok then (.ok (), XDEL r s, [])
    else (.error (.domain .streamPurge), r, s)
  else (.ok (), r, s)

/-- First try block of consumeMessage: getFailedMessage with its error
logged and swallowed, the id and message variables staying undefined on
failure. -/
def consumeStep1 (r : RedisStream) (ok : Bool) :
    (Option EntryId × Option Jval) × RedisStream :=
  match MessageStream.getFailedMessage r ok with
  | (.ok p, r1) => (p, r1)
  | (.error _, r1) => ((none, none), r1)

/-- Second try block of consumeMessage, entered when the message variable
is falsy: XREADGROUP for one new entry; the transport failure, the
NoMessageFoundError thrown on an empty read, and a JSON.parse failure are
all caught and swallowed; the id variable is assigned before JSON.parse
of the data runs, so on a parse failure the new id is kept with the old
message value. readOutcome is the handling of one XREADGROUP reply. -/
def readOutcome (q : Option EntryId × Option Jval)
    (x : Except JsErr (Option (EntryId × List Char)) × RedisStream) :
    (Option EntryId × Option Jval) × RedisStream :=
  match x with
  | (.error _, r2) => (q, r2)
  | (.ok none, r2) => (q, r2)
  | (.ok (some (i, d)), r2) =>
    match Jval.parse d with
    | some v => ((some i, some v), r2)
    | none => ((some i, q.2), r2)

/-- Dispatch of the second block: skip when the message variable is
already truthy or the transport fails, otherwise hand the XREADGROUP
reply to readOutcome. -/
def consumeStep2 (p : (Option EntryId × Option Jval) × RedisStream) (ok : Bool) :
    (Option EntryId × Option Jval) × RedisStream :=
  if jsTruthy p.1.2 then p
  else if ok = false then p
  else readOutcome p.1 (XREADGROUP p.2)

/-- Third try block of consumeMessage, entered when the id variable is
truthy: XACK the id, record it in the processed-ID buffer and, when the
buffer exceeds MAX_PROCESSED_IDS, flush synchronously via
deleteProcessedMessages; every failure of this block (the XACK transport
failure and the purge error alike) is logged and swallowed. On an XACK
failure nothing after it runs, so the id is not recorded. -/
def consumeStep3 (p : (Option EntryId × Option Jval) × RedisStream)
    (s : List EntryId) (ackOk delOk : Bool) :
    Except JsErr (Option EntryId × Option Jval) × RedisStream × List EntryId :=
  match p.1.1 with
  | none => (.ok p.1, p.2, s)
  | some i =>
    if ackOk = false then (.ok p.1, p.2, s)
    else
      let r3 := XACK p.2 i
      let s1 := setAdd s i
      if MAX_PROCESSED_IDS < s1.length then
        match MessageStream.deleteProcessedMessages r3 s1 delOk with
        | (_, r4, s2) => (.ok p.1, r4, s2)
      else (.ok p.1, r3, s1)

/-- MessageStream.consumeMessage: the three sequential try blocks of the
source - reclaim a failed message, otherwise block for one new entry,
then acknowledge and record whichever id was obtained. Every store
failure on the way is logged and swallowed, and the method always
resolves with the (id, message) pair, both fields absent when no entry
was available. -/
def MessageStream.consumeMessage (r : RedisStream) (s : List EntryId)
    (f : ConsumeFaults) :
    Except JsErr (Option EntryId × Option Jval) × RedisStream × List EntryId :=
  consumeStep3 (consumeStep2 (consumeStep1 r f.autoclaimOk) f.readOk) s f.ackOk f.delOk

/-- MessageStream.length: XLEN of the stream; transport failure is
wrapped as the stream query error. -/
def MessageStream.length (r : RedisStream) (ok : Bool) :
    Except JsErr Nat × RedisStream :=
  if ok then (.ok r.entries.length, r)
  else (.error (.domain .streamQuery), r)

/-- MessageStream.disconnect: best-effort deleteProcessedMessages with
its failure logged and swallowed, then client.disconnect whose failure is
wrapped as the stream disconnect error. -/
def MessageStream.disconnect (r : RedisStream) (s : List EntryId)
    (delOk closeOk : Bool) : Except JsErr Unit × RedisStream × List EntryId :=
  match MessageStream.deleteProcessedMessages r s delOk with
  | (_, r1, s1) =>
    if closeOk then (.ok (), r1, s1)
    else (.error (.domain .streamDisconnect), r1, s1)

/-- State of the Redis list key behind MessageQueue: stored JSON texts,
head first. -/
structure QueueRedis where
  items : List (List Char)
deriving DecidableEq

/-- MessageQueue.push: RPUSH of the JSON text of the value; transport
failure is wrapped as the queue write error. -/
def MessageQueue.push (q : QueueRedis) (v : Jval) (ok : Bool) :
    Except JsErr Unit × QueueRedis :=
  if ok then (.ok (), ⟨q.items ++ [Jval.encode v]⟩)
  else (.error (.domain .queueWrite), q)

/-- MessageQueue.pop: LPOP then JSON.parse of the result; LPOP of an
empty list yields null and JSON.parse coerces it to the text null, so the
empty queue resolves with the null value; transport failure and a parse
failure are both wrapped as the queue read error (the parse failure after
a successful LPOP leaves the element removed). -/
def MessageQueue.pop (q : QueueRedis) (ok : Bool) :
    Except JsErr Jval × QueueRedis :=
  if ok then
    match q.items with
    | [] => (.ok .jnull, q)
    | d :: rest =>
      match Jval.parse d with
      | some v => (.ok v, ⟨rest⟩)
      | none => (.error (.domain .queueRead), ⟨rest⟩)
  else (.error (.domain .queueRead), q)

/-- MessageQueue.size: LLEN; transport failure is wrapped as the queue
query error. -/
def MessageQueue.size (q : QueueRedis) (ok : Bool) :
    Except JsErr Nat × QueueRedis :=
  if ok then (.ok q.items.length, q)
  else (.error (.domain .queueQuery), q)

/-- C4: getFailedMessage claims at most one pending entry (the model of
XAUTOCLAIM with min idle time 0 and COUNT 1 returns at most one id, drawn
from the pending list), resolves with both fields absent when no
claimable pending entry exists, and re-raises the underlying transport
error unmodified rather than wrapping it in a domain error. -/
theorem C4_getFailedMessage (r : RedisStream) (g : GroupState)
    (hg : r.group = some g) :
    (MessageStream.getFailedMessage r false).1 = .error .transport ∧
    (g.pending.filter (fun i => r.entries.any (fun e => decide (e.1 = i))) = [] →
      (MessageStream.getFailedMessage r true).1 = .ok (none, none)) ∧
    (∀ i v, (MessageStream.getFailedMessage r true).1 = .ok (some i, some v) →
      i ∈ g.pending) := by
  refine ⟨by simp [MessageStream.getFailedMessage], ?_, ?_⟩
  · intro hemp
    simp [MessageStream.getFailedMessage, XAUTOCLAIM, hg, hemp]
  · intro i v hres
    simp only [MessageStream.getFailedMessage, XAUTOCLAIM, hg] at hres
    rcases hlive : (g.pending.filter
        (fun i => r.entries.any (fun e => decide (e.1 = i)))).head? with _ | i0
    · simp [hlive] at hres
    · have hmem : i0 ∈ g.pending :=
        List.mem_of_mem_filter (List.mem_of_mem_head? hlive)
      simp only [hlive] at hres
      rcases hfind : r.entries.find? (fun e => decide (e.1 = i0)) with _ | ⟨i1, d⟩
      · simp [hfind] at hres
      · simp only [hfind] at hres
        rcases hparse : Jval.parse d with _ | w
        · simp [hparse] at hres
        · simp only [hparse] at hres
          have : i0 = i := by
            have := congrArg (fun x => match x with
              | Except.ok (p : Option EntryId × Option Jval) => p.1
              | Except.error _ => none) hres
            simpa using this
          rw [← this]
          exact hmem

/-- C4 witness: a stream with a group whose pending list is empty. -/
theorem C4_getFailedMessage_witness :
    (MessageStream.getFailedMessage ⟨[], 0, some ⟨0, []⟩⟩ false).1 = .error .transport ∧
    (MessageStream.getFailedMessage ⟨[], 0, some ⟨0, []⟩⟩ true).1 = .ok (none, none) := by
  have h := C4_getFailedMessage ⟨[], 0, some ⟨0, []⟩⟩ ⟨0, []⟩ rfl
  exact ⟨h.1, h.2.1 rfl⟩

/-- C5: when the consumer group already exists, connect swallows the
BUSYGROUP failure of XGROUP_CREATE and returns successfully with the
stream state (group cursor included) unchanged; a transport failure of
either client.connect or XGROUP_CREATE surfaces as the wrapped stream
connect error. -/
theorem C5_connect_idempotent (r : RedisStream) (g : GroupState) (b : Bool)
    (hg : r.group = some g) :
    MessageStream.connect r true true = (.ok (), r) ∧
    (MessageStream.connect r false b).1 = .error (.domain .streamConnect) ∧
    (MessageStream.connect r true false).1 = .error (.domain .streamConnect) := by
  refine ⟨?_, ?_, ?_⟩
  · simp [MessageStream.connect, XGROUP_CREATE, hg]
  · simp [MessageStream.connect]
  · simp [MessageStream.connect]

/-- C5 witness: a stream whose group exists. -/
theorem C5_connect_idempotent_witness :
    MessageStream.connect ⟨[], 5, some ⟨5, [2]⟩⟩ true true = (.ok (), ⟨[], 5, some ⟨5, [2]⟩⟩) ∧
    (MessageStream.connect ⟨[], 5, some ⟨5, [2]⟩⟩ false true).1 =
      .error (.domain .streamConnect) := by
  have h := C5_connect_idempotent ⟨[], 5, some ⟨5, [2]⟩⟩ ⟨5, [2]⟩ true rfl
  exact ⟨h.1, h.2.1⟩

/-- C6: deleteProcessedMessages on an empty buffer performs no store
mutation and does not raise; on a transport failure of the bulk delete it
raises the wrapped stream purge error and leaves the buffer unchanged;
only on a successful bulk delete is the buffer cleared (and the entries
removed from the stream). -/
theorem C6_deleteProcessedMessages_atomic (r : RedisStream) (s : List EntryId)
    (b : Bool) :
    (s = [] → MessageStream.deleteProcessedMessages r s b = (.ok (), r, [])) ∧
    (s ≠ [] → MessageStream.deleteProcessedMessages r s false =
      (.error (.domain .streamPurge), r, s)) ∧
    (s ≠ [] → MessageStream.deleteProcessedMessages r s true =
      (.ok (), XDEL r s, [])) := by
  refine ⟨?_, ?_, ?_⟩
  · intro hs
    subst hs
    simp [MessageStream.deleteProcessedMessages]
  · intro hs
    have : 0 < s.length := List.length_pos.mpr hs
    simp [MessageStream.deleteProcessedMessages, this]
  · intro hs
    have : 0 < s.length := List.length_pos.mpr hs
    simp [MessageStream.deleteProcessedMessages, this]

/-- C6 witness: empty buffer leaves the store untouched, nonempty buffer
with a failing delete keeps its ids. -/
theorem C6_deleteProcessedMessages_atomic_witness :
    MessageStream.deleteProcessedMessages ⟨[(0, [])], 1, none⟩ [] true =
      (.ok (), ⟨[(0, [])], 1, none⟩, []) ∧
    MessageStream.deleteProcessedMessages ⟨[(0, [])], 1, none⟩ [0] false =
      (.error (.domain .streamPurge), ⟨[(0, [])], 1, none⟩, [0]) := by
  have h := C6_deleteProcessedMessages_atomic ⟨[(0, [])], 1, none⟩ [] true
  have h2 := C6_deleteProcessedMessages_atomic ⟨[(0, [])], 1, none⟩ [0] false
  exact ⟨h.1 rfl, h2.2.1 (by simp)⟩

/-- C7: pop on an empty queue resolves with the absent (null) value and
does not raise; the wrapped queue read error is raised exactly on
transport failure or malformed stored JSON, and a well-formed head
resolves with its decoded value. -/
theorem C7_pop_empty_or_error (q : QueueRedis) (d : List Char)
    (ds : List (List Char)) (v : Jval) :
    (q.items = [] → MessageQueue.pop q true = (.ok .jnull, q)) ∧
    ((MessageQueue.pop q false).1 = .error (.domain .queueRead)) ∧
    (q.items = d :: ds → Jval.parse d = none →
      (MessageQueue.pop q true).1 = .error (.domain .queueRead)) ∧
    (q.items = d :: ds → Jval.parse d = some v →
      (MessageQueue.pop q true).1 = .ok v) := by
  refine ⟨?_, ?_, ?_, ?_⟩
  · intro hq
    simp [MessageQueue.pop, hq]
  · simp [MessageQueue.pop]
  · intro hq hp
    simp [MessageQueue.pop, hq, hp]
  · intro hq hp
    simp [MessageQueue.pop, hq, hp]

/-- C7 witness: the empty queue and a queue holding malformed text. -/
theorem C7_pop_empty_or_error_witness :
    MessageQueue.pop ⟨[]⟩ true = (.ok .jnull, ⟨[]⟩) ∧
    (MessageQueue.pop ⟨[['x']]⟩ true).1 = .error (.domain .queueRead) := by
  have h := C7_pop_empty_or_error ⟨[]⟩ [] [] .jnull
  have h2 := C7_pop_empty_or_error ⟨[['x']]⟩ ['x'] [] .jnull
  exact ⟨h.1 rfl, h2.2.2.1 rfl rfl⟩

/-- C8: for every JSON value v, pop after push of v on an empty queue
resolves with v (the JSON encode-on-write / decode-on-read round trip is
the identity) and size afterwards resolves with 0. -/
theorem C8_push_pop_size (v : Jval) :
    (MessageQueue.pop (MessageQueue.push ⟨[]⟩ v true).2 true).1 = .ok v ∧
    (MessageQueue.size
      (MessageQueue.pop (MessageQueue.push ⟨[]⟩ v true).2 true).2 true).1 = .ok 0 := by
  constructor
  · simp [MessageQueue.push, MessageQueue.pop, Jval.parse_encode v]
  · simp [MessageQueue.push, MessageQueue.pop, MessageQueue.size, Jval.parse_encode v]

/-- The third block always resolves with the pair obtained by the first
two blocks: every failure inside it is swallowed. -/
theorem consumeStep3_result (p : (Option EntryId × Option Jval) × RedisStream)
    (s : List EntryId) (ackOk delOk : Bool) :
    (consumeStep3 p s ackOk delOk).1 = .ok p.1 := by
  unfold consumeStep3
  rcases p with ⟨⟨oi, om⟩, r2⟩
  rcases oi with _ | i
  · rfl
  · simp only
    split
    · rfl
    · split
      · unfold MessageStream.deleteProcessedMessages
        split
        · split <;> rfl
        · rfl
      · rfl

/-- consumeMessage always resolves (with the ok constructor): no store
failure inside it is re-raised to the caller. -/
theorem consumeMessage_resolves (r : RedisStream) (s : List EntryId)
    (f : ConsumeFaults) : (MessageStream.consumeMessage r s f).1.isOk = true := by
  unfold MessageStream.consumeMessage
  rw [consumeStep3_result]
  rfl

/-- Observer distinguishing a rejection with one of the wrapped domain
errors of the repository from any other outcome. -/
def isDomainError {α : Type} : Except JsErr α → Bool
  | .error (.domain _) => true
  | _ => false

/-- Exact shape of the processed-ID buffer returned by the third block:
unchanged unless an id was obtained and XACK succeeded, in which case the
id is recorded and the buffer is flushed (emptied on a successful delete,
kept intact on a failed one) exactly when it exceeds the high-water
mark. -/
theorem consumeStep3_buffer (p : (Option EntryId × Option Jval) × RedisStream)
    (s : List EntryId) (ackOk delOk : Bool) :
    (consumeStep3 p s ackOk delOk).2.2 =
      match p.1.1 with
      | none => s
      | some i =>
        if ackOk = false then s
        else if MAX_PROCESSED_IDS < (setAdd s i).length then
          (if delOk then [] else setAdd s i)
        else setAdd s i := by
  unfold consumeStep3
  rcases p with ⟨⟨oi, om⟩, r2⟩
  rcases oi with _ | i
  · rfl
  · simp only
    split
    · rfl
    · split
      · rename_i hlen
        unfold MessageStream.deleteProcessedMessages
        have hpos : 0 < (setAdd s i).length := by
          have : MAX_PROCESSED_IDS = 10000 := rfl
          omega
        simp only [hpos, if_true]
        split <;> simp
      · rfl

/-- Exact shape of the stream state returned by the third block. -/
theorem consumeStep3_state (p : (Option EntryId × Option Jval) × RedisStream)
    (s : List EntryId) (ackOk delOk : Bool) :
    (consumeStep3 p s ackOk delOk).2.1 =
      match p.1.1 with
      | none => p.2
      | some i =>
        if ackOk = false then p.2
        else if MAX_PROCESSED_IDS < (setAdd s i).length then
          (if delOk then XDEL (XACK p.2 i) (setAdd s i) else XACK p.2 i)
        else XACK p.2 i := by
  unfold consumeStep3
  rcases p with ⟨⟨oi, om⟩, r2⟩
  rcases oi with _ | i
  · rfl
  · simp only
    split
    · rfl
    · split
      · rename_i hlen
        unfold MessageStream.deleteProcessedMessages
        have hpos : 0 < (setAdd s i).length := by
          have : MAX_PROCESSED_IDS = 10000 := rfl
          omega
        simp only [hpos, if_true]
        split <;> simp
      · rfl

/-- C1 counterexample: on a stream with one undelivered entry, a
transport failure of the blocking group read (and likewise of the
acknowledgment) is swallowed by consumeMessage, which returns normally
with the ok constructor instead of re-raising a domain-specific error. -/
theorem C1_consumeMessage_counterexample :
    isDomainError (MessageStream.consumeMessage
      ⟨[(0, "true".toList)], 1, some ⟨0, []⟩⟩ [] ⟨true, false, true, true⟩).1 = false ∧
    (MessageStream.consumeMessage
      ⟨[(0, "true".toList)], 1, some ⟨0, []⟩⟩ [] ⟨true, false, true, true⟩).1 =
      .ok (none, none) ∧
    isDomainError (MessageStream.consumeMessage
      ⟨[(0, "true".toList)], 1, some ⟨0, []⟩⟩ [] ⟨true, true, false, true⟩).1 = false ∧
    (MessageStream.consumeMessage
      ⟨[(0, "true".toList)], 1, some ⟨0, []⟩⟩ [] ⟨true, true, false, true⟩).1 =
      .ok (some 0, some (.jbool true)) := by
  exact ⟨rfl, rfl, rfl, rfl⟩

/-- C1 amended: every store-facing operation except getFailedMessage, the
best-effort flush inside disconnect, and the whole of consumeMessage
wraps the underlying transport failure in a domain-specific error;
getFailedMessage re-raises the transport failure unmodified, the
disconnect flush swallows its own failure, and consumeMessage swallows
every store failure on its path (reclaim, blocking group read and
acknowledgment included) and always resolves normally with the (id,
message) pair. -/
theorem C1_propagation_policy (r : RedisStream) (s : List EntryId)
    (f : ConsumeFaults) (q : QueueRedis) (v : Jval) (b : Bool)
    (hs : s ≠ []) :
    (MessageStream.consumeMessage r s f).1.isOk = true ∧
    (MessageStream.getFailedMessage r false).1 = .error .transport ∧
    (MessageStream.disconnect r s false true).1 = .ok () ∧
    (MessageStream.connect r false b).1 = .error (.domain .streamConnect) ∧
    (MessageStream.addMessage r v false).1 = .error (.domain .streamWrite) ∧
    (MessageStream.deleteProcessedMessages r s false).1 =
      .error (.domain .streamPurge) ∧
    (MessageStream.length r false).1 = .error (.domain .streamQuery) ∧
    (MessageStream.disconnect r s b false).1 = .error (.domain .streamDisconnect) ∧
    (MessageQueue.push q v false).1 = .error (.domain .queueWrite) ∧
    (MessageQueue.pop q false).1 = .error (.domain .queueRead) ∧
    (MessageQueue.size q false).1 = .error (.domain .queueQuery) := by
  have hpos : 0 < s.length := List.length_pos.mpr hs
  refine ⟨consumeMessage_resolves r s f, ?_, ?_, ?_, ?_, ?_, ?_, ?_, ?_, ?_, ?_⟩
  · simp [MessageStream.getFailedMessage]
  · simp [MessageStream.disconnect, MessageStream.deleteProcessedMessages, hpos]
  · simp [MessageStream.connect]
  · simp [MessageStream.addMessage]
  · simp [MessageStream.deleteProcessedMessages, hpos]
  · simp [MessageStream.length]
  · unfold MessageStream.disconnect
    split
    · simp
  · simp [MessageQueue.push]
  · simp [MessageQueue.pop]
  · simp [MessageQueue.size]

/-- C1 witness: a concrete nonempty buffer. -/
theorem C1_propagation_policy_witness :
    (MessageStream.consumeMessage ⟨[], 0, none⟩ [3] ⟨true, true, true, true⟩).1.isOk
      = true ∧
    (MessageStream.deleteProcessedMessages ⟨[], 0, none⟩ [3] false).1 =
      .error (.domain .streamPurge) := by
  have h := C1_propagation_policy ⟨[], 0, none⟩ [3] ⟨true, true, true, true⟩
    ⟨[]⟩ .jnull true (by simp)
  exact ⟨h.1, h.2.2.2.2.2.1⟩

/-- Read cursor of the consumer group, if the group exists. -/
def cursorOf (r : RedisStream) : Option EntryId :=
  r.group.map GroupState.lastDelivered

/-- XACK does not move the group read cursor. -/
theorem cursorOf_XACK (r : RedisStream) (i : EntryId) :
    cursorOf (XACK r i) = cursorOf r := by
  unfold XACK cursorOf
  rcases r with ⟨e, n, _ | g⟩ <;> rfl

/-- XDEL does not touch the group. -/
theorem cursorOf_XDEL (r : RedisStream) (ids : List EntryId) :
    cursorOf (XDEL r ids) = cursorOf r := rfl

/-- C2 counterexample: a stream where getFailedMessage yields the pending
entry 0 with deserialized payload null, and a new entry 1 is available;
consumeMessage nevertheless performs the blocking group read and returns
entry 1 with its payload, moving the group cursor past entry 1. -/
theorem C2_consumeMessage_counterexample :
    (MessageStream.getFailedMessage
      ⟨[(0, "null".toList), (1, "true".toList)], 2, some ⟨1, [0]⟩⟩ true).1 =
      .ok (some 0, some .jnull) ∧
    (MessageStream.consumeMessage
      ⟨[(0, "null".toList), (1, "true".toList)], 2, some ⟨1, [0]⟩⟩ []
      ⟨true, true, true, true⟩).1 = .ok (some 1, some (.jbool true)) ∧
    (MessageStream.consumeMessage
      ⟨[(0, "null".toList), (1, "true".toList)], 2, some ⟨1, [0]⟩⟩ []
      ⟨true, true, true, true⟩).2.1.group = some ⟨2, [0]⟩ := by
  exact ⟨rfl, rfl, rfl⟩

/-- C2 amended: consumeMessage uses the entry yielded by getFailedMessage
and skips the blocking group read exactly when the deserialized payload
of that entry is truthy; with a truthy payload the call returns that
entry and leaves the group cursor where getFailedMessage left it, while
with a falsy payload (null, false, 0 or the empty string) the blocking
read is still performed and a new entry delivered by it is returned
instead. -/
theorem C2_failed_entry_use (r : RedisStream) (s : List EntryId)
    (f : ConsumeFaults) (i : EntryId) (v : Jval)
    (h : (MessageStream.getFailedMessage r f.autoclaimOk).1 = .ok (some i, some v)) :
    (v.truthy = true →
      (MessageStream.consumeMessage r s f).1 = .ok (some i, some v) ∧
      cursorOf (MessageStream.consumeMessage r s f).2.1 =
        cursorOf (MessageStream.getFailedMessage r f.autoclaimOk).2) ∧
    (v.truthy = false → f.readOk = true →
      ∀ j d r2, XREADGROUP (MessageStream.getFailedMessage r f.autoclaimOk).2 =
        (.ok (some (j, d)), r2) → ∀ w, Jval.parse d = some w →
      (MessageStream.consumeMessage r s f).1 = .ok (some j, some w)) := by
  have hpair : MessageStream.getFailedMessage r f.autoclaimOk =
      (.ok (some i, some v), (MessageStream.getFailedMessage r f.autoclaimOk).2) := by
    rw [← h]
  have hstep1 : consumeStep1 r f.autoclaimOk =
      ((some i, some v), (MessageStream.getFailedMessage r f.autoclaimOk).2) := by
    unfold consumeStep1
    rw [hpair]
  constructor
  · intro ht
    have hstep2 : consumeStep2 (consumeStep1 r f.autoclaimOk) f.readOk =
        ((some i, some v), (MessageStream.getFailedMessage r f.autoclaimOk).2) := by
      rw [hstep1]
      unfold consumeStep2
      simp [jsTruthy, ht]
    constructor
    · unfold MessageStream.consumeMessage
      rw [hstep2, consumeStep3_result]
    · unfold MessageStream.consumeMessage
      rw [hstep2, consumeStep3_state]
      simp only
      split
      · rfl
      · split
        · split
          · rw [cursorOf_XDEL, cursorOf_XACK]
          · rw [cursorOf_XACK]
        · rw [cursorOf_XACK]
  · intro ht hok j d r2 hread w hw
    have hstep2 : consumeStep2 (consumeStep1 r f.autoclaimOk) f.readOk =
        ((some j, some w), r2) := by
      rw [hstep1]
      unfold consumeStep2
      simp [jsTruthy, ht, hok, hread, readOutcome, hw]
    unfold MessageStream.consumeMessage
    rw [hstep2, consumeStep3_result]

/-- C2 witness: a pending entry with the truthy payload true is returned
by consumeMessage with the cursor untouched. -/
theorem C2_failed_entry_use_witness :
    (MessageStream.consumeMessage ⟨[(0, "true".toList)], 1, some ⟨1, [0]⟩⟩ []
      ⟨true, true, true, true⟩).1 = .ok (some 0, some (.jbool true)) ∧
    cursorOf (MessageStream.consumeMessage ⟨[(0, "true".toList)], 1, some ⟨1, [0]⟩⟩ []
      ⟨true, true, true, true⟩).2.1 =
      cursorOf (MessageStream.getFailedMessage
        ⟨[(0, "true".toList)], 1, some ⟨1, [0]⟩⟩ true).2 :=
  (C2_failed_entry_use ⟨[(0, "true".toList)], 1, some ⟨1, [0]⟩⟩ []
    ⟨true, true, true, true⟩ 0 (.jbool true) rfl).1 rfl

/-- Membership after a JS Set.add: the element is old or the added id. -/
theorem mem_setAdd (s : List EntryId) (j i : EntryId) (h : i ∈ setAdd s j) :
    i ∈ s ∨ i = j := by
  unfold setAdd at h
  split at h
  · exact Or.inl h
  · rcases List.mem_append.mp h with h2 | h2
    · exact Or.inl h2
    · exact Or.inr (List.mem_singleton.mp h2)

/-- JS Set.add never removes an element. -/
theorem mem_setAdd_of_mem (s : List EntryId) (j i : EntryId) (h : i ∈ s) :
    i ∈ setAdd s j := by
  unfold setAdd
  split
  · exact h
  · exact List.mem_append_left _ h

/-- JS Set.add never produces the empty set. -/
theorem setAdd_ne_nil (s : List EntryId) (j : EntryId) : setAdd s j ≠ [] := by
  unfold setAdd
  split
  · intro hc
    subst hc
    simp_all
  · simp

/-- A successful claim of XAUTOCLAIM leaves the entries unchanged and
returns an id that is pending in the successor state and stored in the
stream with the returned data. -/
theorem XAUTOCLAIM_ok_some (r r1 : RedisStream) (i : EntryId) (d : List Char)
    (h : XAUTOCLAIM r = (.ok (some (i, d)), r1)) :
    r1.entries = r.entries ∧
    (∃ g1, r1.group = some g1 ∧ i ∈ g1.pending) ∧ (i, d) ∈ r.entries := by
  unfold XAUTOCLAIM at h
  rcases hg : r.group with _ | g
  · rw [hg] at h
    simp at h
  · rw [hg] at h
    simp only at h
    rcases hlive : (g.pending.filter
        (fun i => r.entries.any (fun e => decide (e.1 = i)))).head? with _ | i0
    · rw [hlive] at h
      simp at h
    · rw [hlive] at h
      simp only at h
      rcases hfind : r.entries.find? (fun e => decide (e.1 = i0)) with _ | ⟨i1, d1⟩
      · rw [hfind] at h
        simp at h
      · rw [hfind] at h
        simp only [Prod.mk.injEq, Except.ok.injEq, Option.some.injEq] at h
        obtain ⟨⟨hi, hd⟩, hr1⟩ := h
        have hfmem := List.mem_of_find?_eq_some hfind
        have hfpred := List.find?_some hfind
        simp only [decide_eq_true_eq] at hfpred
        subst hi hd
        refine ⟨by rw [← hr1], ⟨⟨g.lastDelivered, _⟩, by rw [← hr1], ?_⟩, ?_⟩
        · exact List.mem_of_mem_head? hlive
        · rw [hfpred] at hfmem
          exact hfmem

/-- A successful delivery of XREADGROUP leaves the entries unchanged and
returns an id that is pending in the successor state and stored in the
stream with the returned data. -/
theorem XREADGROUP_ok_some (r r1 : RedisStream) (i : EntryId) (d : List Char)
    (h : XREADGROUP r = (.ok (some (i, d)), r1)) :
    r1.entries = r.entries ∧
    (∃ g1, r1.group = some g1 ∧ i ∈ g1.pending) ∧ (i, d) ∈ r.entries := by
  unfold XREADGROUP at h
  rcases hg : r.group with _ | g
  · rw [hg] at h
    simp at h
  · rw [hg] at h
    simp only at h
    rcases hhead : (r.entries.filter
        (fun e => decide (g.lastDelivered ≤ e.1))).head? with _ | ⟨i0, d0⟩
    · rw [hhead] at h
      simp at h
    · rw [hhead] at h
      simp only [Prod.mk.injEq, Except.ok.injEq, Option.some.injEq] at h
      obtain ⟨⟨hi, hd⟩, hr1⟩ := h
      rw [← hi, ← hd, ← hr1]
      have hmem : (i0, d0) ∈ r.entries :=
        List.mem_of_mem_filter (List.mem_of_mem_head? hhead)
      exact ⟨rfl, ⟨⟨i0 + 1, g.pending ++ [i0]⟩, rfl,
        List.mem_append_right _ (List.mem_singleton.mpr rfl)⟩, hmem⟩

/-- find? on a list of entries with no duplicate ids locates exactly the
stored pair. -/
theorem find?_entries_nodup (l : List (EntryId × List Char)) (i : EntryId)
    (d : List Char) (hnd : (l.map Prod.fst).Nodup) (hmem : (i, d) ∈ l) :
    l.find? (fun e => decide (e.1 = i)) = some (i, d) := by
  induction l with
  | nil => simp at hmem
  | cons a t ih =>
    rcases a with ⟨a1, a2⟩
    simp only [List.map_cons, List.nodup_cons] at hnd
    rcases List.mem_cons.mp hmem with heq | hmem2
    · rw [← heq]
      simp [List.find?]
    · have hne : a1 ≠ i := by
        intro hc
        subst hc
        exact hnd.1 (List.mem_map.mpr ⟨(a1, d), hmem2, rfl⟩)
      rw [List.find?]
      rw [show (decide ((a1, a2).1 = i)) = false from decide_eq_false hne]
      exact ih hnd.2 hmem2

/-- C9: invariants of the processed-ID buffer. Grown only by the id that
this consumeMessage call successfully acknowledged (the XACK step
succeeded and the call returns that id), never shrunk element-wise by any
operation, and emptied only when the buffer was already empty or the bulk
delete of deleteProcessedMessages succeeded. The remaining operations
(connect, addMessage, getFailedMessage, length) do not touch the buffer,
which their signatures in this embedding make structural. -/
theorem C9_buffer_invariant (r : RedisStream) (s : List EntryId)
    (f : ConsumeFaults) (b : Bool) :
    (∀ i, i ∈ (MessageStream.consumeMessage r s f).2.2 →
      i ∈ s ∨ (f.ackOk = true ∧
        ∃ m, (MessageStream.consumeMessage r s f).1 = .ok (some i, m))) ∧
    (∀ i, i ∈ s → i ∈ (MessageStream.consumeMessage r s f).2.2 ∨
      (MessageStream.consumeMessage r s f).2.2 = []) ∧
    ((MessageStream.consumeMessage r s f).2.2 = [] → s = [] ∨ f.delOk = true) ∧
    (∀ i, i ∈ (MessageStream.deleteProcessedMessages r s b).2.2 → i ∈ s) ∧
    (∀ i, i ∈ s → i ∈ (MessageStream.deleteProcessedMessages r s b).2.2 ∨
      (MessageStream.deleteProcessedMessages r s b).2.2 = []) ∧
    ((MessageStream.deleteProcessedMessages r s b).2.2 = [] →
      s = [] ∨ b = true) := by
  have hres := consumeStep3_result
    (consumeStep2 (consumeStep1 r f.autoclaimOk) f.readOk) s f.ackOk f.delOk
  have hbuf := consumeStep3_buffer
    (consumeStep2 (consumeStep1 r f.autoclaimOk) f.readOk) s f.ackOk f.delOk
  refine ⟨?_, ?_, ?_, ?_, ?_, ?_⟩
  · intro i hi
    unfold MessageStream.consumeMessage at hi ⊢
    rw [hbuf] at hi
    rcases hid : (consumeStep2 (consumeStep1 r f.autoclaimOk) f.readOk).1.1
      with _ | i0
    · rw [hid] at hi
      exact Or.inl hi
    · rw [hid] at hi
      simp only at hi
      by_cases hack : f.ackOk = false
    
      · rw [if_pos hack] at hi
        exact Or.inl hi
      · rw [if_neg hack] at hi
        have hacktrue : f.ackOk = true := by
          rcases hb2 : f.ackOk with _ | _
          · exact absurd hb2 hack
          · rfl
        have hok : (consumeStep3 (consumeStep2 (consumeStep1 r f.autoclaimOk)
            f.readOk) s f.ackOk f.delOk).1 =
            .ok (some i0,
              (consumeStep2 (consumeStep1 r f.autoclaimOk) f.readOk).1.2) := by
          rw [hres]
          rw [show (consumeStep2 (consumeStep1 r f.autoclaimOk) f.readOk).1 =
            ((consumeStep2 (consumeStep1 r f.autoclaimOk) f.readOk).1.1,
             (consumeStep2 (consumeStep1 r f.autoclaimOk) f.readOk).1.2) from rfl]
          rw [hid]
        by_cases hlen : MAX_PROCESSED_IDS < (setAdd s i0).length
        · rw [if_pos hlen] at hi
          by_cases hdel : f.delOk = true
          · rw [if_pos hdel] at hi
            simp at hi
          · rw [if_neg hdel] at hi
            rcases mem_setAdd s i0 i hi with h2 | h2
            · exact Or.inl h2
            · subst h2
              exact Or.inr ⟨hacktrue, _, hok⟩
        · rw [if_neg hlen] at hi
          rcases mem_setAdd s i0 i hi with h2 | h2
          · exact Or.inl h2
          · subst h2
            exact Or.inr ⟨hacktrue, _, hok⟩
  · intro i hi
    unfold MessageStream.consumeMessage
    rw [hbuf]
    rcases hid : (consumeStep2 (consumeStep1 r f.autoclaimOk) f.readOk).1.1
      with _ | i0
    · exact Or.inl hi
    · simp only
      by_cases hack : f.ackOk = false
      · rw [if_pos hack]
        exact Or.inl hi
      · rw [if_neg hack]
        by_cases hlen : MAX_PROCESSED_IDS < (setAdd s i0).length
        · rw [if_pos hlen]
          by_cases hdel : f.delOk = true
          · rw [if_pos hdel]
            exact Or.inr rfl
          · rw [if_neg hdel]
            exact Or.inl (mem_setAdd_of_mem s i0 i hi)
        · rw [if_neg hlen]
          exact Or.inl (mem_setAdd_of_mem s i0 i hi)
  · intro hemp
    unfold MessageStream.consumeMessage at hemp
    rw [hbuf] at hemp
    rcases hid : (consumeStep2 (consumeStep1 r f.autoclaimOk) f.readOk).1.1
      with _ | i0
    · rw [hid] at hemp
      exact Or.inl hemp
    · rw [hid] at hemp
      simp only at hemp
      by_cases hack : f.ackOk = false
      · rw [if_pos hack] at hemp
        exact Or.inl hemp
      · rw [if_neg hack] at hemp
        by_cases hlen : MAX_PROCESSED_IDS < (setAdd s i0).length
        · rw [if_pos hlen] at hemp
          by_cases hdel : f.delOk = true
          · exact Or.inr hdel
          · rw [if_neg hdel] at hemp
            exact absurd hemp (setAdd_ne_nil s i0)
        · rw [if_neg hlen] at hemp
          exact absurd hemp (setAdd_ne_nil s i0)
  · intro i hi
    unfold MessageStream.deleteProcessedMessages at hi
    split at hi
    · split at hi
      · simp at hi
      · exact hi
    · exact hi
  · intro i hi
    unfold MessageStream.deleteProcessedMessages
    split
    · split
      · exact Or.inr rfl
      · exact Or.inl hi
    · exact Or.inl hi
  · intro hemp
    unfold MessageStream.deleteProcessedMessages at hemp
    split at hemp
    · split at hemp
      · rename_i hb
        exact Or.inr hb
      · exact Or.inl hemp
    · exact Or.inl hemp

/-- Outcome of the first consumeMessage block: either both variables stay
undefined, or a pending entry was claimed, in which case the id is
pending in the successor state, the entries are untouched, and the
message is the decoded stored data of that id. -/
theorem consumeStep1_cases (r : RedisStream) (ok : Bool) :
    (consumeStep1 r ok).1 = (none, none) ∨
    (∃ i v, (consumeStep1 r ok).1 = (some i, some v) ∧
      (consumeStep1 r ok).2.entries = r.entries ∧
      (∃ g1, (consumeStep1 r ok).2.group = some g1 ∧ i ∈ g1.pending) ∧
      (∃ d, (i, d) ∈ r.entries ∧ Jval.parse d = some v)) := by
  unfold consumeStep1 MessageStream.getFailedMessage
  by_cases hok : ok = false
  · rw [if_pos hok]
    exact Or.inl rfl
  · rw [if_neg hok]
    rcases hac : XAUTOCLAIM r with ⟨res, r1⟩
    rcases res with e | op
    · exact Or.inl rfl
    · rcases op with _ | ⟨i, d⟩
      · exact Or.inl rfl
      · rcases hp : Jval.parse d with _ | v
        · exact Or.inl (by simp [hp])
        · have hfacts := XAUTOCLAIM_ok_some r r1 i d hac
          refine Or.inr ⟨i, v, by simp [hp], by simp [hp, hfacts.1], ?_, d, hfacts.2.2, hp⟩
          simpa [hp] using hfacts.2.1

/-- A rejected XREADGROUP leaves the stream state unchanged. -/
theorem XREADGROUP_error (r r2 : RedisStream) (e : JsErr)
    (h : XREADGROUP r = (.error e, r2)) : r2 = r := by
  unfold XREADGROUP at h
  rcases hg : r.group with _ | g
  · rw [hg] at h
    simp only [Prod.mk.injEq] at h
    exact h.2.symm
  · rw [hg] at h
    simp only at h
    rcases hhead : (r.entries.filter
        (fun e => decide (g.lastDelivered ≤ e.1))).head? with _ | ⟨i0, d0⟩
    · rw [hhead] at h
      simp at h
    · rw [hhead] at h
      simp at h

/-- An empty XREADGROUP reply (the blocking timeout) leaves the stream
state unchanged. -/
theorem XREADGROUP_none (r r2 : RedisStream)
    (h : XREADGROUP r = (.ok none, r2)) : r2 = r := by
  unfold XREADGROUP at h
  rcases hg : r.group with _ | g
  · rw [hg] at h
    simp at h
  · rw [hg] at h
    simp only at h
    rcases hhead : (r.entries.filter
        (fun e => decide (g.lastDelivered ≤ e.1))).head? with _ | ⟨i0, d0⟩
    · rw [hhead] at h
      simp only [Prod.mk.injEq] at h
      exact h.2.symm
    · rw [hhead] at h
      simp at h

/-- Whenever the pair produced by the first two consumeMessage blocks
carries an id, that id is pending in the accompanying stream state and an
entry with that id is stored in the stream. -/
theorem consume12_id (r : RedisStream) (ok1 ok2 : Bool) (i : EntryId)
    (hid : (consumeStep2 (consumeStep1 r ok1) ok2).1.1 = some i) :
    (∃ g, (consumeStep2 (consumeStep1 r ok1) ok2).2.group = some g ∧
      i ∈ g.pending) ∧
    (∃ d, (i, d) ∈ (consumeStep2 (consumeStep1 r ok1) ok2).2.entries) := by
  have hcases := consumeStep1_cases r ok1
  rcases hP : consumeStep1 r ok1 with ⟨⟨oid, om⟩, rP⟩
  rw [hP] at hcases hid
  unfold consumeStep2 at hid ⊢
  simp only at hid ⊢
  rcases hcases with h1 | ⟨i0, v0, h1, hent, hpend, d0, hd0, hp0⟩
  · obtain ⟨hoid, hom⟩ := (Prod.mk.injEq oid om none none).mp h1
    subst hoid hom
    simp only [jsTruthy, Bool.false_eq_true, if_false] at hid ⊢
    by_cases hok2 : ok2 = false
    · rw [if_pos hok2] at hid
      simp at hid
    · rw [if_neg hok2] at hid ⊢
      rcases hread : XREADGROUP rP with ⟨res, r2⟩
      rw [hread] at hid
      rcases res with e | op
      · simp [readOutcome] at hid
      · rcases op with _ | ⟨j, d⟩
        · simp [readOutcome] at hid
        · have hfacts := XREADGROUP_ok_some rP r2 j d hread
          simp only [readOutcome] at hid ⊢
          rcases hp : Jval.parse d with _ | w <;>
            (rw [hp] at hid
             have hji : j = i := Option.some.injEq j i |>.mp hid
             subst hji
             refine ⟨hfacts.2.1, d, ?_⟩
             show (j, d) ∈ r2.entries
             rw [hfacts.1]
             exact hfacts.2.2)
  · obtain ⟨hoid, hom⟩ := (Prod.mk.injEq oid om (some i0) (some v0)).mp h1
    subst hoid hom
    have hent2 : rP.entries = r.entries := hent
    have hpend2 : ∃ g1, rP.group = some g1 ∧ i0 ∈ g1.pending := hpend
    simp only [jsTruthy] at hid ⊢
    by_cases ht : v0.truthy = true
    · simp only [ht, if_true] at hid ⊢
      have hii : i0 = i := Option.some.injEq i0 i |>.mp hid
      subst hii
      exact ⟨hpend2, d0, by rw [hent2]; exact hd0⟩
    · have ht2 : v0.truthy = false := by
        rcases hb2 : v0.truthy with _ | _
        · rfl
        · exact absurd hb2 ht
      simp only [ht2, Bool.false_eq_true, if_false] at hid ⊢
      by_cases hok2 : ok2 = false
      · rw [if_pos hok2] at hid ⊢
        have hii : i0 = i := Option.some.injEq i0 i |>.mp hid
        subst hii
        exact ⟨hpend2, d0, by rw [hent2]; exact hd0⟩
      · rw [if_neg hok2] at hid ⊢
        rcases hread : XREADGROUP rP with ⟨res, r2⟩
        rw [hread] at hid
        rcases res with e | op
        · have hr2 : r2 = rP := XREADGROUP_error rP r2 e hread
          subst hr2
          simp only [readOutcome] at hid ⊢
          have hii : i0 = i := Option.some.injEq i0 i |>.mp hid
          subst hii
          exact ⟨hpend2, d0, by rw [hent2]; exact hd0⟩
        · rcases op with _ | ⟨j, d⟩
          · have hr2 : r2 = rP := XREADGROUP_none rP r2 hread
            subst hr2
            simp only [readOutcome] at hid ⊢
            have hii : i0 = i := Option.some.injEq i0 i |>.mp hid
            subst hii
            exact ⟨hpend2, d0, by rw [hent2]; exact hd0⟩
          · have hfacts := XREADGROUP_ok_some rP r2 j d hread
            simp only [readOutcome] at hid ⊢
            rcases hp : Jval.parse d with _ | w <;>
              (rw [hp] at hid
               have hji : j = i := Option.some.injEq j i |>.mp hid
               subst hji
               refine ⟨hfacts.2.1, d, ?_⟩
               show (j, d) ∈ r2.entries
               rw [hfacts.1]
               exact hfacts.2.2)


/-- With a failing XACK the third block changes nothing: same pair, same
stream state, same buffer. -/
theorem consumeStep3_noack (p : (Option EntryId × Option Jval) × RedisStream)
    (s : List EntryId) (delOk : Bool) :
    consumeStep3 p s false delOk = (.ok p.1, p.2, s) := by
  rcases p with ⟨⟨oi, om⟩, rp⟩
  cases oi <;> rfl

/-- When the group exists with an empty pending list, the first block
yields no entry and leaves the entries untouched and the pending list
empty. -/
theorem consumeStep1_empty (r : RedisStream) (ok : Bool) (g0 : GroupState)
    (hg : r.group = some g0) (hp : g0.pending = []) :
    (consumeStep1 r ok).1 = (none, none) ∧
    (consumeStep1 r ok).2.entries = r.entries ∧
    (consumeStep1 r ok).2.nextId = r.nextId ∧
    (consumeStep1 r ok).2.group = some ⟨g0.lastDelivered, []⟩ := by
  unfold consumeStep1 MessageStream.getFailedMessage
  by_cases hok : ok = false
  · rw [if_pos hok]
    refine ⟨rfl, rfl, rfl, ?_⟩
    rcases g0 with ⟨ld, pend⟩
    simp only at hp
    subst hp
    exact hg
  · rw [if_neg hok]
    unfold XAUTOCLAIM
    rw [hg]
    simp [hp]

/-- C10: when consumeMessage obtains an entry but the acknowledgment
step fails, the failure is swallowed, the (id, message) pair is still
returned, the id is not recorded in the processed-ID buffer, and the
entry remains pending in the group with its data still stored; in the
canonical situation (group with empty pending list, duplicate-free ids,
payload deserialized) a following getFailedMessage call claims the very
same entry again with the same message. -/
theorem C10_ack_failure (r : RedisStream) (s : List EntryId) (f : ConsumeFaults)
    (g0 : GroupState) (i : EntryId) (m : Option Jval)
    (hack : f.ackOk = false)
    (hres : (MessageStream.consumeMessage r s f).1 = .ok (some i, m)) :
    (MessageStream.consumeMessage r s f).2.2 = s ∧
    (∃ g, (MessageStream.consumeMessage r s f).2.1.group = some g ∧
      i ∈ g.pending) ∧
    (∃ d, (i, d) ∈ (MessageStream.consumeMessage r s f).2.1.entries) ∧
    (r.group = some g0 → g0.pending = [] → (r.entries.map Prod.fst).Nodup →
      ∀ w, m = some w →
      (MessageStream.getFailedMessage
        (MessageStream.consumeMessage r s f).2.1 true).1 = .ok (some i, some w)) := by
  have hmsg : MessageStream.consumeMessage r s f =
      (.ok (consumeStep2 (consumeStep1 r f.autoclaimOk) f.readOk).1,
       (consumeStep2 (consumeStep1 r f.autoclaimOk) f.readOk).2, s) := by
    unfold MessageStream.consumeMessage
    rw [hack, consumeStep3_noack]
  rw [hmsg] at hres ⊢
  simp only [Except.ok.injEq] at hres
  have hid : (consumeStep2 (consumeStep1 r f.autoclaimOk) f.readOk).1.1 = some i := by
    rw [hres]
  have hfacts := consume12_id r f.autoclaimOk f.readOk i hid
  refine ⟨rfl, hfacts.1, hfacts.2, ?_⟩
  intro hg hp0 hnd w hm
  obtain ⟨hP11, hent1, hnext1, hgrp1⟩ := consumeStep1_empty r f.autoclaimOk g0 hg hp0
  have hpairP : consumeStep1 r f.autoclaimOk =
      ((none, none), (consumeStep1 r f.autoclaimOk).2) := by
    rw [← hP11]
  have hm2 : (consumeStep2 (consumeStep1 r f.autoclaimOk) f.readOk).1.2 = some w := by
    rw [hres]
    exact hm
  unfold consumeStep2 at hid hm2 ⊢
  rw [hpairP] at hid hm2 ⊢
  simp only [jsTruthy, Bool.false_eq_true, if_false] at hid hm2 ⊢
  by_cases hok2 : f.readOk = false
  · rw [if_pos hok2] at hid
    simp at hid
  · rw [if_neg hok2] at hid hm2 ⊢
    rcases hread : XREADGROUP (consumeStep1 r f.autoclaimOk).2 with ⟨res, r2⟩
    rw [hread] at hid hm2
    rcases res with e | op
    · simp [readOutcome] at hid
    · rcases op with _ | ⟨j, d⟩
      · simp [readOutcome] at hid
      · simp only [readOutcome] at hid hm2 ⊢
        rcases hp : Jval.parse d with _ | w0
        · rw [hp] at hm2
          simp at hm2
        · rw [hp] at hid hm2
          have hji : j = i := Option.some.injEq j i |>.mp hid
          have hww : w0 = w := Option.some.injEq w0 w |>.mp hm2
          subst hji hww
          show (MessageStream.getFailedMessage r2 true).1 = Except.ok (some j, some w0)
          unfold XREADGROUP at hread
          rw [hgrp1] at hread
          simp only at hread
          rcases hhead : ((consumeStep1 r f.autoclaimOk).2.entries.filter
              (fun e => decide (g0.lastDelivered ≤ e.1))).head? with _ | ⟨j0, d0⟩
          · rw [hhead] at hread
            simp at hread
          · rw [hhead] at hread
            simp only [Prod.mk.injEq, Except.ok.injEq, Option.some.injEq] at hread
            obtain ⟨⟨hj0, hd0⟩, hr2⟩ := hread
            subst hj0 hd0
            have hmem : (j0, d0) ∈ r.entries := by
              rw [← hent1]
              exact List.mem_of_mem_filter (List.mem_of_mem_head? hhead)
            rw [← hr2]
            unfold MessageStream.getFailedMessage XAUTOCLAIM
            simp only [List.nil_append]
            have hany : (consumeStep1 r f.autoclaimOk).2.entries.any
                (fun e => decide (e.1 = j0)) = true := by
              rw [hent1]
              exact List.any_eq_true.mpr ⟨(j0, d0), hmem, by simp⟩
            simp only [List.filter_cons, List.filter_nil, hany, if_true,
              List.head?_cons]
            have hfind : (consumeStep1 r f.autoclaimOk).2.entries.find?
                (fun e => decide (e.1 = j0)) = some (j0, d0) := by
              rw [hent1]
              exact find?_entries_nodup r.entries j0 d0 hnd hmem
            simp only [hfind, hp]
            rfl

/-- C10 witness: one fresh entry, XACK transport-fails; the entry is
still returned, the buffer stays empty, and getFailedMessage reclaims the
same entry with the same message. -/
theorem C10_ack_failure_witness :
    (MessageStream.consumeMessage ⟨[(0, "true".toList)], 1, some ⟨0, []⟩⟩ []
      ⟨true, true, false, true⟩).2.2 = [] ∧
    (MessageStream.getFailedMessage
      (MessageStream.consumeMessage ⟨[(0, "true".toList)], 1, some ⟨0, []⟩⟩ []
        ⟨true, true, false, true⟩).2.1 true).1 = .ok (some 0, some (.jbool true)) := by
  have h := C10_ack_failure ⟨[(0, "true".toList)], 1, some ⟨0, []⟩⟩ []
    ⟨true, true, false, true⟩ ⟨0, []⟩ 0 (some (.jbool true)) rfl rfl
  exact ⟨h.1, h.2.2.2 rfl rfl (by simp) (.jbool true) rfl⟩

/-- Stream contents for the purge scenario: n entries with ids 0 to n-1
and arbitrary stored data. -/
def entriesN (dat : Nat → List Char) : Nat → List (EntryId × List Char)
  | 0 => []
  | n + 1 => entriesN dat n ++ [(n, dat n)]

/-- Every id in entriesN dat n is below n. -/
theorem entriesN_lt (dat : Nat → List Char) :
    ∀ n, ∀ e ∈ entriesN dat n, e.1 < n := by
  intro n
  induction n with
  | zero => simp [entriesN]
  | succ n ih =>
    intro e he
    rcases List.mem_append.mp he with h | h
    · exact Nat.lt_succ_of_lt (ih e h)
    · simp only [List.mem_singleton] at h
      subst h
      exact Nat.lt_succ_self n

/-- The first entry at or past cursor k in entriesN dat n is entry k. -/
theorem entriesN_filter_head (dat : Nat → List Char) :
    ∀ n k, k < n →
    ((entriesN dat n).filter (fun e => decide (k ≤ e.1))).head? =
      some (k, dat k) := by
  intro n
  induction n with
  | zero => omega
  | succ n ih =>
    intro k hk
    rw [show entriesN dat (n + 1) = entriesN dat n ++ [(n, dat n)] from rfl,
      List.filter_append]
    by_cases hkn : k < n
    · rw [List.head?_append]
      rw [ih k hkn]
      rfl
    · have hkeq : k = n := by omega
      subst hkeq
      have hflt : (entriesN dat k).filter (fun e => decide (k ≤ e.1)) = [] := by
        apply List.filter_eq_nil_iff.mpr
        intro e he
        have h9 := entriesN_lt dat k e he
        intro hc
        simp only [decide_eq_true_eq] at hc
        exact absurd hc (Nat.not_le.mpr h9)
      rw [hflt]
      simp

/-- Handling of a successful one-entry XREADGROUP reply starting with no
id: the new id is kept and the message is exactly the JSON.parse result
of the stored data. -/
theorem readOutcome_ok (k : EntryId) (d : List Char) (r2 : RedisStream) :
    readOutcome (none, none) (.ok (some (k, d)), r2) =
      ((some k, Jval.parse d), r2) := by
  rcases hp : Jval.parse d with _ | v <;> simp [readOutcome, hp]

/-- One consumeMessage call in the purge scenario: the group cursor is at
k with nothing pending, entry k is delivered, acknowledged and recorded,
and the buffer is flushed exactly when it crosses the high-water mark. -/
theorem consume_step_purge (dat : Nat → List Char) (k : Nat) (s : List EntryId)
    (hk : k < 10001) :
    MessageStream.consumeMessage ⟨entriesN dat 10001, 10001, some ⟨k, []⟩⟩ s
      ⟨true, true, true, true⟩ =
      (.ok (some k, Jval.parse (dat k)),
       (if MAX_PROCESSED_IDS < (setAdd s k).length then
         XDEL ⟨entriesN dat 10001, 10001, some ⟨k + 1, []⟩⟩ (setAdd s k)
       else ⟨entriesN dat 10001, 10001, some ⟨k + 1, []⟩⟩),
       if MAX_PROCESSED_IDS < (setAdd s k).length then [] else setAdd s k) := by
  have hstep1 := consumeStep1_empty ⟨entriesN dat 10001, 10001, some ⟨k, []⟩⟩
    true ⟨k, []⟩ rfl rfl
  have h2 : (consumeStep1 ⟨entriesN dat 10001, 10001, some ⟨k, []⟩⟩ true).2 =
      ⟨entriesN dat 10001, 10001, some ⟨k, []⟩⟩ := by
    calc (consumeStep1 ⟨entriesN dat 10001, 10001, some ⟨k, []⟩⟩ true).2
        = ⟨(consumeStep1 ⟨entriesN dat 10001, 10001, some ⟨k, []⟩⟩ true).2.entries,
           (consumeStep1 ⟨entriesN dat 10001, 10001, some ⟨k, []⟩⟩ true).2.nextId,
           (consumeStep1 ⟨entriesN dat 10001, 10001, some ⟨k, []⟩⟩ true).2.group⟩ := rfl
      _ = ⟨entriesN dat 10001, 10001, some ⟨k, []⟩⟩ := by
          rw [hstep1.2.1, hstep1.2.2.1, hstep1.2.2.2]
  have hpair : consumeStep1 ⟨entriesN dat 10001, 10001, some ⟨k, []⟩⟩ true =
      ((none, none), ⟨entriesN dat 10001, 10001, some ⟨k, []⟩⟩) :=
    Prod.ext hstep1.1 h2
  have hreadgen : ∀ E : List (EntryId × List Char),
      (E.filter (fun e => decide (k ≤ e.1))).head? = some (k, dat k) →
      XREADGROUP ⟨E, 10001, some ⟨k, []⟩⟩ =
        (.ok (some (k, dat k)), ⟨E, 10001, some ⟨k + 1, [k]⟩⟩) := by
    intro E hE
    unfold XREADGROUP
    simp only [hE]
    simp
  have hread := hreadgen (entriesN dat 10001) (entriesN_filter_head dat 10001 k hk)
  have hstep2 : consumeStep2 (consumeStep1
      ⟨entriesN dat 10001, 10001, some ⟨k, []⟩⟩ true) true =
      ((some k, Jval.parse (dat k)),
       ⟨entriesN dat 10001, 10001, some ⟨k + 1, [k]⟩⟩) := by
    rw [hpair]
    unfold consumeStep2
    simp only [jsTruthy, Bool.false_eq_true, if_false]
    rw [hread, readOutcome_ok]
    rfl
  show consumeStep3 _ s true true = _
  rw [hstep2]
  unfold consumeStep3
  rcases hp : Jval.parse (dat k) with _ | v <;>
    (simp only
     rw [show XACK ⟨entriesN dat 10001, 10001, some ⟨k + 1, [k]⟩⟩ k =
       ⟨entriesN dat 10001, 10001, some ⟨k + 1, []⟩⟩ from by
         unfold XACK
         simp [List.erase_cons_head]]
     by_cases hlen : MAX_PROCESSED_IDS < (setAdd s k).length
     · rw [if_pos hlen, if_pos hlen, if_pos hlen]
       unfold MessageStream.deleteProcessedMessages
       have hpos : 0 < (setAdd s k).length := by
         have : MAX_PROCESSED_IDS = 10000 := rfl
         omega
       simp [hpos]
     · rw [if_neg hlen, if_neg hlen, if_neg hlen]
       rfl)

/-- Iterated consumeMessage calls of the purge scenario: start with 10001
fresh entries, an empty buffer and the cursor at 0, and call
consumeMessage with all store commands succeeding. -/
def consumeIter (dat : Nat → List Char) : Nat → RedisStream × List EntryId
  | 0 => (⟨entriesN dat 10001, 10001, some ⟨0, []⟩⟩, [])
  | k + 1 =>
    (MessageStream.consumeMessage (consumeIter dat k).1 (consumeIter dat k).2
      ⟨true, true, true, true⟩).2

/-- The JS Set.add of the next fresh id extends the range buffer. -/
theorem setAdd_range (k : Nat) : setAdd (List.range k) k = List.range (k + 1) := by
  unfold setAdd
  rw [if_neg (by simp), List.range_succ]

/-- Invariant of the purge scenario short of the high-water mark: after k
calls the cursor is at k and the buffer holds exactly the k consumed
ids. -/
theorem consumeIter_inv (dat : Nat → List Char) :
    ∀ k, k ≤ 10000 →
    consumeIter dat k =
      (⟨entriesN dat 10001, 10001, some ⟨k, []⟩⟩, List.range k) := by
  intro k
  induction k with
  | zero => intro _; rfl
  | succ k ih =>
    intro hk
    have hinv := ih (by omega)
    show (MessageStream.consumeMessage (consumeIter dat k).1 (consumeIter dat k).2
      ⟨true, true, true, true⟩).2 = _
    rw [hinv]
    simp only
    rw [consume_step_purge dat k (List.range k) (by omega)]
    rw [setAdd_range k]
    have hlen : ¬ MAX_PROCESSED_IDS < (List.range (k + 1)).length := by
      simp only [List.length_range]
      show ¬ 10000 < k + 1
      omega
    rw [if_neg hlen, if_neg hlen]

/-- C3: acknowledging MAX_PROCESSED_IDS + 1 = 10001 distinct fresh
entries through consumeMessage, starting from an empty processed-ID
buffer, triggers exactly one automatic purge: through the first 10000
calls the buffer only grows (its size after call k is exactly k, so no
purge has run), and the call that crosses the mark flushes synchronously
before returning, leaving the buffer empty (size at or below the mark)
and the purged entries deleted from the stream. -/
theorem C3_automatic_purge (dat : Nat → List Char) :
    (∀ k, k ≤ 10000 → (consumeIter dat k).2.length = k) ∧
    (consumeIter dat 10001).2 = [] ∧
    (consumeIter dat 10001).1.entries = [] ∧
    (consumeIter dat 10001).2.length ≤ MAX_PROCESSED_IDS := by
  have hfin : consumeIter dat 10001 =
      (XDEL ⟨entriesN dat 10001, 10001, some ⟨10001, []⟩⟩ (List.range 10001), []) := by
    have hsucc : consumeIter dat 10001 =
        (MessageStream.consumeMessage (consumeIter dat 10000).1
          (consumeIter dat 10000).2 ⟨true, true, true, true⟩).2 := by
      conv_lhs => rw [consumeIter]
    rw [hsucc]
    rw [consumeIter_inv dat 10000 (by omega)]
    simp only
    rw [consume_step_purge dat 10000 (List.range 10000) (by omega)]
    rw [setAdd_range 10000]
    have hlen : MAX_PROCESSED_IDS < (List.range 10001).length := by
      simp only [List.length_range]
      show 10000 < 10001
      omega
    rw [if_pos hlen, if_pos hlen]
  refine ⟨?_, ?_, ?_, ?_⟩
  · intro k hk
    rw [consumeIter_inv dat k hk]
    simp
  · rw [hfin]
  · rw [hfin]
    unfold XDEL
    simp only
    apply List.filter_eq_nil_iff.mpr
    intro e he
    have h9 := entriesN_lt dat 10001 e he
    intro hc
    simp only [Bool.not_eq_true'] at hc
    have hcontains : (List.range 10001).contains e.1 = true := by
      have hmem : e.1 ∈ List.range 10001 := List.mem_range.mpr h9
      simpa using hmem
    rw [hcontains] at hc
    simp at hc
  · rw [hfin]
    simp [MAX_PROCESSED_IDS]

/-- C3 witness: the concrete run with empty payloads reaches buffer size
10000 without a purge and is empty after the crossing call. -/
theorem C3_automatic_purge_witness :
    (consumeIter (fun _ => []) 10000).2.length = 10000 ∧
    (consumeIter (fun _ => []) 10001).2 = [] :=
  ⟨(C3_automatic_purge (fun _ => [])).1 10000 (by decide),
   (C3_automatic_purge (fun _ => [])).2.1⟩

/-- C9 witness: an id already in the buffer stays there or the buffer was
flushed whole. -/
theorem C9_buffer_invariant_witness :
    5 ∈ (MessageStream.consumeMessage ⟨[], 0, none⟩ [5]
      ⟨true, true, true, true⟩).2.2 ∨
    (MessageStream.consumeMessage ⟨[], 0, none⟩ [5]
      ⟨true, true, true, true⟩).2.2 = [] :=
  (C9_buffer_invariant ⟨[], 0, none⟩ [5] ⟨true, true, true, true⟩ true).2.1 5
    (by simp)
